import Mathlib

/-!
Verification of the `ebs-recover-and-replace` tool
(`src/ebs-recover-and-replace/src/ebs_recover_and_replace/__init__.py`).

The development shallowly embeds the parts of the tool that the claims are
about:

* the plan codec (`save_plan` / `load_plan`), including a model of Python's
  `json.dumps` (default separators `", "` / `": "`, `ensure_ascii=True`,
  with and without `sort_keys=True`) and of `json.load` on the grammar
  fragment the artifacts use (strings with the full escape set incl.
  surrogate pairs, integers, booleans, arrays, objects, and the whitespace
  `" \t\n\r"` between tokens);
* the interactive selector loops (`get_volume_choice`, `get_snapshot_choice`,
  `get_user_confirmation`), including the exact Python list-mutation
  semantics of `del lst[i]` inside a `for ... in enumerate(lst)` loop;
* the restore orchestrator (`restore_ebs_volume`, `toggle_ec2_state`,
  `detach_ebs_volume`, `attach_ebs_volume`, `manage_restore_process`)
  as a trace-producing function over an abstract gateway oracle;
* the plan revalidator (`verify_instance`, `verify_volume`,
  `verify_snapshot`, `revalidate_loaded_plan`) over a live-resource oracle;
* the duration formatter `seconds_to_dhms`.

The MD5 digest (`hashlib.md5(...).hexdigest()`) is an external library
function; it is modelled as an explicit function parameter `hash` of the
codec, so collision-freedom can be assumed where a claim needs it.
-/

/-! ## JSON values

`J` models the Python values that can appear in a plan artifact: strings,
ints, booleans, lists and dicts.  Dicts are modelled as key/value sequences
in insertion order (`JMembers`); a sequence that models an actual Python
dict has pairwise-distinct keys (`nodupJ`).  The mutual inductive (rather
than `List J` nesting) keeps every recursion structural, hence reducible.
-/

mutual

inductive J where
  | str (s : String)
  | jint (n : Int)
  | bool (b : Bool)
  | arr (xs : JList)
  | obj (kvs : JMembers)

inductive JList where
  | nil
  | cons (hd : J) (tl : JList)

inductive JMembers where
  | nil
  | cons (key : String) (val : J) (tl : JMembers)

end

mutual

/-- Structural size of a `J` value, used as a fuel bound for the parser. -/
def sizeJ : J → Nat
  | .str _ => 1
  | .jint _ => 1
  | .bool _ => 1
  | .arr xs => 1 + sizeJL xs
  | .obj kvs => 1 + sizeJM kvs

def sizeJL : JList → Nat
  | .nil => 0
  | .cons x xs => 1 + sizeJ x + sizeJL xs

def sizeJM : JMembers → Nat
  | .nil => 0
  | .cons _ v tl => 1 + sizeJ v + sizeJM tl

end

/-- Keys of a member sequence. -/
def keysJM : JMembers → List String
  | .nil => []
  | .cons k _ tl => k :: keysJM tl

/-- Python `d[key]` on a dict modelled by a member sequence (first match;
for sequences with distinct keys this is exactly the dict lookup). -/
def lookupJM : JMembers → String → Option J
  | .nil, _ => none
  | .cons k v tl, key => if k = key then some v else lookupJM tl key

/-- Python `key in d`. -/
def hasKeyJM (kvs : JMembers) (key : String) : Bool :=
  (lookupJM kvs key).isSome

mutual

/-- All object member sequences inside the value have pairwise distinct
keys, i.e. the value is the image of an actual Python object tree. -/
def nodupJ : J → Bool
  | .str _ => true
  | .jint _ => true
  | .bool _ => true
  | .arr xs => nodupJL xs
  | .obj kvs => nodupJM kvs

def nodupJL : JList → Bool
  | .nil => true
  | .cons x xs => nodupJ x && nodupJL xs

def nodupJM : JMembers → Bool
  | .nil => true
  | .cons k v tl => !(keysJM tl).contains k && nodupJ v && nodupJM tl

end

/-! ## Serialization: `json.dumps`

Default separators are `", "` between items and `": "` after keys.
`ensure_ascii=True` escapes `"` and `\` and every character outside
`0x20..0x7e`, using the `\b \t \n \f \r` shortcuts, `\uXXXX` (lowercase
hex) otherwise, and surrogate pairs for characters above `0xffff`.
-/

/-- Lowercase hex digit, `d < 16`. -/
def hexDigitC (d : Nat) : Char :=
  "0123456789abcdef".data.getD d '0'

/-- Four lowercase hex digits of `n < 0x10000`, most significant first. -/
def hex4 (n : Nat) : List Char :=
  [hexDigitC (n / 4096 % 16), hexDigitC (n / 256 % 16),
   hexDigitC (n / 16 % 16), hexDigitC (n % 16)]

/-- `ensure_ascii` escaping of one character (CPython's
`py_encode_basestring_ascii`). -/
def escapeChar (c : Char) : List Char :=
  if c = '\\' then ['\\', '\\']
  else if c = '"' then ['\\', '"']
  else if c.toNat = 8 then ['\\', 'b']
  else if c.toNat = 9 then ['\\', 't']
  else if c.toNat = 10 then ['\\', 'n']
  else if c.toNat = 12 then ['\\', 'f']
  else if c.toNat = 13 then ['\\', 'r']
  else if 32 ≤ c.toNat ∧ c.toNat ≤ 126 then [c]
  else if c.toNat < 65536 then '\\' :: 'u' :: hex4 c.toNat
  else
    ('\\' :: 'u' :: hex4 (55296 + (c.toNat - 65536) / 1024)) ++
    ('\\' :: 'u' :: hex4 (56320 + (c.toNat - 65536) % 1024))

/-- Body of a serialized string (no surrounding quotes). -/
def escBody (l : List Char) : List Char :=
  l.flatMap escapeChar

/-- A serialized string, quotes included. -/
def dumpStr (s : String) : List Char :=
  '"' :: escBody s.data ++ ['"']

/-- Decimal digit character. -/
def digCh (d : Nat) : Char := Char.ofNat (48 + d)

/-- Decimal digits of `n`, most significant first (`fuel > n` suffices
since the digit count of `n` is at most `n + 1`). -/
def natToDecAux : Nat → Nat → List Char
  | 0, _ => []
  | fuel + 1, n => if n < 10 then [digCh n] else natToDecAux fuel (n / 10) ++ [digCh (n % 10)]

/-- Decimal representation of a natural number. -/
def natToDec (n : Nat) : List Char := natToDecAux (n + 1) n

/-- Python's decimal form of an int. -/
def dumpInt : Int → List Char
  | .ofNat m => natToDec m
  | .negSucc m => '-' :: natToDec (m + 1)

mutual

/-- `json.dumps` with default separators and `ensure_ascii=True`, in the
insertion order of the dict members. -/
def dumpJ : J → List Char
  | .str s => dumpStr s
  | .jint n => dumpInt n
  | .bool b => if b then ['t', 'r', 'u', 'e'] else ['f', 'a', 'l', 's', 'e']
  | .arr .nil => ['[', ']']
  | .arr (.cons x xs) => '[' :: (dumpJ x ++ dumpJLRest xs) ++ [']']
  | .obj .nil => ['\x7b', '\x7d']
  | .obj (.cons k v tl) =>
      '\x7b' :: (dumpStr k ++ ':' :: ' ' :: dumpJ v ++ dumpJMRest tl) ++ ['\x7d']

/-- Remaining array elements, each preceded by the `", "` separator. -/
def dumpJLRest : JList → List Char
  | .nil => []
  | .cons x xs => ',' :: ' ' :: (dumpJ x ++ dumpJLRest xs)

/-- Remaining object members, each preceded by the `", "` separator. -/
def dumpJMRest : JMembers → List Char
  | .nil => []
  | .cons k v tl => ',' :: ' ' :: (dumpStr k ++ ':' :: ' ' :: dumpJ v ++ dumpJMRest tl)

end

/-- Code-point lexicographic `≤` on character lists: Python's `str`
comparison used by `sorted`/`sort_keys`. -/
def charListLe : List Char → List Char → Bool
  | [], _ => true
  | _ :: _, [] => false
  | a :: as, b :: bs =>
      if a.toNat < b.toNat then true
      else if b.toNat < a.toNat then false
      else charListLe as bs

/-- Insert a member into a key-sorted member sequence (insertion sort step). -/
def insertJM (k : String) (v : J) : JMembers → JMembers
  | .nil => .cons k v .nil
  | .cons k2 v2 tl =>
      if charListLe k.data k2.data then .cons k v (.cons k2 v2 tl)
      else .cons k2 v2 (insertJM k v tl)

mutual

/-- Recursively sort all object keys: the value whose plain dump equals
`json.dumps(x, sort_keys=True)` of the original. -/
def sortJ : J → J
  | .str s => .str s
  | .jint n => .jint n
  | .bool b => .bool b
  | .arr xs => .arr (sortJL xs)
  | .obj kvs => .obj (sortJM kvs)

def sortJL : JList → JList
  | .nil => .nil
  | .cons x xs => .cons (sortJ x) (sortJL xs)

def sortJM : JMembers → JMembers
  | .nil => .nil
  | .cons k v tl => insertJM k (sortJ v) (sortJM tl)

end

/-- `json.dumps(x, sort_keys=True, ensure_ascii=True)` as a `String`:
the canonical text the checksum is computed over. -/
def canonDump (j : J) : String :=
  String.mk (dumpJ (sortJ j))

/-- `json.dumps(x)` as a `String` (insertion order): the saved file text. -/
def plainDump (j : J) : String :=
  String.mk (dumpJ j)

/-! ## Parsing: `json.load`

A fuel-indexed recursive-descent parser for the fragment of JSON that the
plan artifacts (and their small mutations) use: strings, integers,
booleans, arrays, objects.  It mirrors CPython's `json` scanner on this
fragment: inter-token whitespace is `" \t\n\r"`, strings reject raw
control characters (`strict=True`) and decode the full escape set with
surrogate-pair recombination (inputs that decode to *lone* surrogates are
not representable as Lean strings and are rejected instead), numbers
reject leading zeros.  Floats and `null` never occur in an artifact and
are not part of the fragment.
-/


/-- Skip JSON inter-token whitespace. -/
def jskipWs : List Char → List Char
  | [] => []
  | c :: cs =>
      if c.toNat = 32 ∨ c.toNat = 9 ∨ c.toNat = 10 ∨ c.toNat = 13 then jskipWs cs
      else c :: cs

/-- Value of one hex digit (either case), as the scanner accepts. -/
def hexValC (c : Char) : Option Nat :=
  if 48 ≤ c.toNat ∧ c.toNat ≤ 57 then some (c.toNat - 48)
  else if 97 ≤ c.toNat ∧ c.toNat ≤ 102 then some (c.toNat - 87)
  else if 65 ≤ c.toNat ∧ c.toNat ≤ 70 then some (c.toNat - 55)
  else none

/-- Value of four hex digits, most significant first. -/
def hex4val (h1 h2 h3 h4 : Char) : Option Nat :=
  match hexValC h1, hexValC h2, hexValC h3, hexValC h4 with
  | some a, some b, some c, some d => some (a * 4096 + b * 256 + c * 16 + d)
  | _, _, _, _ => none

/-- Outcome of scanning one unit of a string body. -/
inductive ScanOut where
  | close (rest : List Char)
  | emit (c : Char) (rest : List Char)
  | bad

/-- Scan one unit of a string body: the closing quote, a literal
character, or one escape sequence (CPython `py_scanstring`, strict mode;
escapes that would decode to a lone surrogate are rejected since a lone
surrogate is not a unicode scalar value). -/
def scanUnit : List Char → ScanOut
  | [] => .bad
  | c :: rest =>
    if c = '"' then .close rest
    else if c = '\\' then
      match rest with
      | [] => .bad
      | e :: r2 =>
        if e = '"' then .emit '"' r2
        else if e = '\\' then .emit '\\' r2
        else if e = '/' then .emit '/' r2
        else if e = 'b' then .emit (Char.ofNat 8) r2
        else if e = 'f' then .emit (Char.ofNat 12) r2
        else if e = 'n' then .emit (Char.ofNat 10) r2
        else if e = 'r' then .emit (Char.ofNat 13) r2
        else if e = 't' then .emit (Char.ofNat 9) r2
        else if e = 'u' then
          match r2 with
          | h1 :: h2 :: h3 :: h4 :: r3 =>
            match hex4val h1 h2 h3 h4 with
            | none => .bad
            | some n =>
              if 55296 ≤ n ∧ n ≤ 56319 then
                match r3 with
                | b1 :: b2 :: g1 :: g2 :: g3 :: g4 :: r5 =>
                  if b1 = '\\' ∧ b2 = 'u' then
                    match hex4val g1 g2 g3 g4 with
                    | some m =>
                        if 56320 ≤ m ∧ m ≤ 57343 then
                          .emit (Char.ofNat (65536 + (n - 55296) * 1024 + (m - 56320))) r5
                        else .bad
                    | none => .bad
                  else .bad
                | _ => .bad
              else if 56320 ≤ n ∧ n ≤ 57343 then .bad
              else .emit (Char.ofNat n) r3
          | _ => .bad
        else .bad
    else if c.toNat < 32 then .bad
    else .emit c rest

/-- String-body scan: iterate `scanUnit` until the closing quote.  Every
unit consumes at least one character, so `fuel` larger than the input
length never runs out. -/
def scanStrF : Nat → List Char → Option (List Char × List Char)
  | 0, _ => none
  | fuel + 1, cs =>
    match scanUnit cs with
    | .close rest => some ([], rest)
    | .emit c rest =>
        match scanStrF fuel rest with
        | some (l, r) => some (c :: l, r)
        | none => none
    | .bad => none

/-- Scan a string body (after the opening quote): decoded characters plus
the input after the closing quote. -/
def scanStr (cs : List Char) : Option (List Char × List Char) :=
  scanStrF (cs.length + 1) cs

/-- Greedy decimal-digit scan accumulating onto `acc`. -/
def scanDigits : List Char → Nat → Nat × List Char
  | [], acc => (acc, [])
  | c :: rest, acc =>
      if 48 ≤ c.toNat ∧ c.toNat ≤ 57 then scanDigits rest (acc * 10 + (c.toNat - 48))
      else (acc, c :: rest)

/-- Magnitude of a JSON integer: `0 | [1-9][0-9]*` (no leading zeros). -/
def scanNumMag : List Char → Option (Nat × List Char)
  | [] => none
  | c :: rest =>
      if c = '0' then some (0, rest)
      else if 48 ≤ c.toNat ∧ c.toNat ≤ 57 then some (scanDigits (c :: rest) 0)
      else none

/-- A JSON integer with optional leading minus sign. -/
def scanNumber (cs : List Char) : Option (Int × List Char) :=
  match cs with
  | [] => none
  | c :: rest =>
      if c = '-' then
        match scanNumMag rest with
        | some (m, r) => some (-(m : Int), r)
        | none => none
      else
        match scanNumMag (c :: rest) with
        | some (m, r) => some ((m : Int), r)
        | none => none

/-- Strip the tail of the literal `true` after its leading `t`. -/
def stripTrue : List Char → Option (List Char)
  | 'r' :: 'u' :: 'e' :: r => some r
  | _ => none

/-- Strip the tail of the literal `false` after its leading `f`. -/
def stripFalse : List Char → Option (List Char)
  | 'a' :: 'l' :: 's' :: 'e' :: r => some r
  | _ => none

mutual

/-- Parse one JSON value of the artifact fragment; the fuel bounds the
nesting recursion (any `fuel ≥ sizeJ` of the value suffices). -/
def parseVal : Nat → List Char → Option (J × List Char)
  | 0, _ => none
  | fuel + 1, cs =>
    match cs with
    | [] => none
    | c :: rest =>
      if c = '"' then
        match scanStr rest with
        | some (l, r) => some (.str (String.mk l), r)
        | none => none
      else if c = 't' then
        match stripTrue rest with
        | some r => some (.bool true, r)
        | none => none
      else if c = 'f' then
        match stripFalse rest with
        | some r => some (.bool false, r)
        | none => none
      else if c = '\x7b' then
        match jskipWs rest with
        | [] => none
        | c2 :: r2 =>
            if c2 = '\x7d' then some (.obj .nil, r2)
            else
              match parseMembers fuel (c2 :: r2) with
              | some (kvs, r3) => some (.obj kvs, r3)
              | none => none
      else if c = '[' then
        match jskipWs rest with
        | [] => none
        | c2 :: r2 =>
            if c2 = ']' then some (.arr .nil, r2)
            else
              match parseElems fuel (c2 :: r2) with
              | some (xs, r3) => some (.arr xs, r3)
              | none => none
      else
        match scanNumber (c :: rest) with
        | some (n, r) => some (.jint n, r)
        | none => none

/-- Parse a non-empty `key: value` member list up to and including the
closing brace. -/
def parseMembers : Nat → List Char → Option (JMembers × List Char)
  | 0, _ => none
  | fuel + 1, cs =>
    match cs with
    | [] => none
    | c :: rest =>
      if c = '"' then
        match scanStr rest with
        | none => none
        | some (k, r1) =>
          match jskipWs r1 with
          | [] => none
          | c2 :: r2 =>
            if c2 = ':' then
              match parseVal fuel (jskipWs r2) with
              | none => none
              | some (v, r3) =>
                match jskipWs r3 with
                | [] => none
                | c3 :: r4 =>
                  if c3 = ',' then
                    match parseMembers fuel (jskipWs r4) with
                    | some (kvs, r5) => some (.cons (String.mk k) v kvs, r5)
                    | none => none
                  else if c3 = '\x7d' then some (.cons (String.mk k) v .nil, r4)
                  else none
            else none
      else none

/-- Parse a non-empty element list up to and including the closing
bracket. -/
def parseElems : Nat → List Char → Option (JList × List Char)
  | 0, _ => none
  | fuel + 1, cs =>
    match parseVal fuel cs with
    | none => none
    | some (v, r1) =>
      match jskipWs r1 with
      | [] => none
      | c2 :: r2 =>
        if c2 = ',' then
          match parseElems fuel (jskipWs r2) with
          | some (xs, r3) => some (.cons v xs, r3)
          | none => none
        else if c2 = ']' then some (.cons v .nil, r2)
        else none

end

/-- `json.load` of one document: parse a value, then require that only
whitespace remains. -/
def pyJsonParse (s : String) : Option J :=
  match parseVal (s.length + 1) (jskipWs s.data) with
  | some (j, rest) => if jskipWs rest = [] then some j else none
  | none => none

/-! ## Roundtrip: `json.load` inverts `json.dumps`

These lemmas establish `pyJsonParse (plainDump j) = some j`, the key fact
behind the save/load claims.
-/

/-- A Lean `Char` is a unicode scalar value: below the surrogate range or
between it and `0x110000`. -/
theorem char_valid_range (c : Char) :
    c.toNat < 55296 ∨ (57343 < c.toNat ∧ c.toNat < 1114112) :=
  c.valid

/-- Eta for strings. -/
theorem strMkData (s : String) : String.mk s.data = s := rfl

theorem char_ne_of_toNat_ne {c d : Char} (h : c.toNat ≠ d.toNat) : c ≠ d :=
  fun he => h (he ▸ rfl)

theorem hexValC_hexDigitC (d : Nat) (h : d < 16) : hexValC (hexDigitC d) = some d := by
  interval_cases d <;> decide

theorem hex4val_hex4 (n : Nat) (h : n < 65536) :
    hex4val (hexDigitC (n / 4096 % 16)) (hexDigitC (n / 256 % 16))
      (hexDigitC (n / 16 % 16)) (hexDigitC (n % 16)) = some n := by
  rw [hex4val, hexValC_hexDigitC _ (Nat.mod_lt _ (by omega)),
    hexValC_hexDigitC _ (Nat.mod_lt _ (by omega)),
    hexValC_hexDigitC _ (Nat.mod_lt _ (by omega)),
    hexValC_hexDigitC _ (Nat.mod_lt _ (by omega))]
  simp only [Option.some.injEq]
  omega

/-- Scanning a literal (unescaped, non-control) character emits it. -/
theorem scanUnit_lit (c : Char) (rest : List Char) (hq : c ≠ '"') (hb : c ≠ '\\')
    (hc : 32 ≤ c.toNat) : scanUnit (c :: rest) = .emit c rest := by
  simp only [scanUnit.eq_def]
  rw [if_neg hq, if_neg hb, if_neg (by omega)]

/-- Shape of `scanUnit` on a `\uXXXX` escape. -/
theorem scanUnit_u (a b c2 d : Char) (r : List Char) :
    scanUnit ('\\' :: 'u' :: a :: b :: c2 :: d :: r) =
      match hex4val a b c2 d with
      | none => .bad
      | some n =>
        if 55296 ≤ n ∧ n ≤ 56319 then
          match r with
          | b1 :: b2 :: g1 :: g2 :: g3 :: g4 :: r5 =>
            if b1 = '\\' ∧ b2 = 'u' then
              match hex4val g1 g2 g3 g4 with
              | some m =>
                  if 56320 ≤ m ∧ m ≤ 57343 then
                    .emit (Char.ofNat (65536 + (n - 55296) * 1024 + (m - 56320))) r5
                  else .bad
              | none => .bad
            else .bad
          | _ => .bad
        else if 56320 ≤ n ∧ n ≤ 57343 then .bad
        else .emit (Char.ofNat n) r := by rfl

/-- Scanning one escaped character yields that character back. -/
theorem scanUnit_escapeChar (c : Char) (rest : List Char) :
    scanUnit (escapeChar c ++ rest) = .emit c rest := by
  by_cases h1 : c = '\\'
  · subst h1; rfl
  by_cases h2 : c = '"'
  · subst h2; rw [escapeChar, if_neg h1, if_pos rfl]; rfl
  by_cases h3 : c.toNat = 8
  · have hc : c = Char.ofNat 8 := by rw [← h3, Char.ofNat_toNat]
    rw [escapeChar, if_neg h1, if_neg h2, if_pos h3]
    rw [show scanUnit (['\\', 'b'] ++ rest) = .emit (Char.ofNat 8) rest from rfl, ← hc]
  by_cases h4 : c.toNat = 9
  · have hc : c = Char.ofNat 9 := by rw [← h4, Char.ofNat_toNat]
    rw [escapeChar, if_neg h1, if_neg h2, if_neg h3, if_pos h4]
    rw [show scanUnit (['\\', 't'] ++ rest) = .emit (Char.ofNat 9) rest from rfl, ← hc]
  by_cases h5 : c.toNat = 10
  · have hc : c = Char.ofNat 10 := by rw [← h5, Char.ofNat_toNat]
    rw [escapeChar, if_neg h1, if_neg h2, if_neg h3, if_neg h4, if_pos h5]
    rw [show scanUnit (['\\', 'n'] ++ rest) = .emit (Char.ofNat 10) rest from rfl, ← hc]
  by_cases h6 : c.toNat = 12
  · have hc : c = Char.ofNat 12 := by rw [← h6, Char.ofNat_toNat]
    rw [escapeChar, if_neg h1, if_neg h2, if_neg h3, if_neg h4, if_neg h5, if_pos h6]
    rw [show scanUnit (['\\', 'f'] ++ rest) = .emit (Char.ofNat 12) rest from rfl, ← hc]
  by_cases h7 : c.toNat = 13
  · have hc : c = Char.ofNat 13 := by rw [← h7, Char.ofNat_toNat]
    rw [escapeChar, if_neg h1, if_neg h2, if_neg h3, if_neg h4, if_neg h5, if_neg h6, if_pos h7]
    rw [show scanUnit (['\\', 'r'] ++ rest) = .emit (Char.ofNat 13) rest from rfl, ← hc]
  by_cases h8 : 32 ≤ c.toNat ∧ c.toNat ≤ 126
  · rw [escapeChar, if_neg h1, if_neg h2, if_neg h3, if_neg h4, if_neg h5, if_neg h6,
      if_neg h7, if_pos h8]
    exact scanUnit_lit c rest h2 h1 h8.1
  by_cases h9 : c.toNat < 65536
  · rw [escapeChar, if_neg h1, if_neg h2, if_neg h3, if_neg h4, if_neg h5, if_neg h6,
      if_neg h7, if_neg h8, if_pos h9]
    have hval := char_valid_range c
    rw [show ('\\' :: 'u' :: hex4 c.toNat ++ rest : List Char) =
      '\\' :: 'u' :: hexDigitC (c.toNat / 4096 % 16) :: hexDigitC (c.toNat / 256 % 16) ::
      hexDigitC (c.toNat / 16 % 16) :: hexDigitC (c.toNat % 16) :: rest from rfl]
    rw [scanUnit_u]
    simp only [hex4val_hex4 _ h9]
    rw [if_neg (by omega), if_neg (by omega), Char.ofNat_toNat]
  · rw [escapeChar, if_neg h1, if_neg h2, if_neg h3, if_neg h4, if_neg h5, if_neg h6,
      if_neg h7, if_neg h8, if_neg h9]
    have hval := char_valid_range c
    have hmod := Nat.mod_lt (c.toNat - 65536) (y := 1024) (by omega)
    have hdiv : (c.toNat - 65536) / 1024 ≤ 1023 := by omega
    have hd1 : 55296 + (c.toNat - 65536) / 1024 < 65536 := by omega
    have hd2 : 56320 + (c.toNat - 65536) % 1024 < 65536 := by omega
    rw [show (('\\' :: 'u' :: hex4 (55296 + (c.toNat - 65536) / 1024)) ++
        ('\\' :: 'u' :: hex4 (56320 + (c.toNat - 65536) % 1024)) ++ rest : List Char) =
      '\\' :: 'u' :: hexDigitC ((55296 + (c.toNat - 65536) / 1024) / 4096 % 16) ::
        hexDigitC ((55296 + (c.toNat - 65536) / 1024) / 256 % 16) ::
        hexDigitC ((55296 + (c.toNat - 65536) / 1024) / 16 % 16) ::
        hexDigitC ((55296 + (c.toNat - 65536) / 1024) % 16) ::
        ('\\' :: 'u' :: hexDigitC ((56320 + (c.toNat - 65536) % 1024) / 4096 % 16) ::
        hexDigitC ((56320 + (c.toNat - 65536) % 1024) / 256 % 16) ::
        hexDigitC ((56320 + (c.toNat - 65536) % 1024) / 16 % 16) ::
        hexDigitC ((56320 + (c.toNat - 65536) % 1024) % 16) :: rest) from rfl]
    rw [scanUnit_u]
    simp only [hex4val_hex4 _ hd1]
    rw [if_pos (by omega)]
    rw [if_pos (by simp)]
    simp only [hex4val_hex4 _ hd2]
    rw [if_pos (by omega)]
    have harith : 65536 + (55296 + (c.toNat - 65536) / 1024 - 55296) * 1024 +
        (56320 + (c.toNat - 65536) % 1024 - 56320) = c.toNat := by
      have := Nat.div_add_mod (c.toNat - 65536) 1024
      omega
    rw [harith, Char.ofNat_toNat]

/-- An escaped string body followed by the closing quote scans back to
the original characters (given enough fuel). -/
theorem scanStrF_escBody (l : List Char) : ∀ (fuel : Nat) (rest : List Char),
    l.length < fuel → scanStrF fuel (escBody l ++ '"' :: rest) = some (l, rest) := by
  induction l with
  | nil =>
      intro fuel rest h
      match fuel, h with
      | f + 1, _ => rfl
  | cons c t ih =>
      intro fuel rest h
      match fuel, h with
      | f + 1, h =>
        rw [show escBody (c :: t) = escapeChar c ++ escBody t from rfl, List.append_assoc]
        rw [scanStrF, scanUnit_escapeChar]
        show (match scanStrF f (escBody t ++ '"' :: rest) with
              | some (l, r) => some (c :: l, r)
              | none => none) = some (c :: t, rest)
        rw [ih f rest (by simp only [List.length_cons] at h; omega)]

/-- Each character escapes to at least one character. -/
theorem escapeChar_length_pos (c : Char) : 1 ≤ (escapeChar c).length := by
  rw [escapeChar]
  split_ifs <;> simp [hex4]

/-- The escaped body is at least as long as the original. -/
theorem escBody_length (l : List Char) : l.length ≤ (escBody l).length := by
  induction l with
  | nil => simp [escBody]
  | cons c t ih =>
      rw [show escBody (c :: t) = escapeChar c ++ escBody t from rfl]
      have := escapeChar_length_pos c
      simp only [List.length_cons, List.length_append]
      omega

/-- An escaped string body followed by the closing quote scans back to
the original characters. -/
theorem scanStr_escBody (l : List Char) (rest : List Char) :
    scanStr (escBody l ++ '"' :: rest) = some (l, rest) := by
  rw [scanStr]
  apply scanStrF_escBody
  have := escBody_length l
  simp only [List.length_append, List.length_cons]
  omega

/-- The input does not continue with a decimal digit (so a greedy digit
scan stops exactly there). -/
def nonDigitHead : List Char → Prop
  | [] => True
  | c :: _ => c.toNat < 48 ∨ 57 < c.toNat

theorem digCh_toNat (d : Nat) (h : d < 10) : (digCh d).toNat = 48 + d := by
  interval_cases d <;> decide

/-- The decimal digits of `n` start with a digit character, nonzero when
`n` is nonzero. -/
theorem natToDecAux_head : ∀ (fuel n : Nat), n < fuel →
    ∃ d ds, natToDecAux fuel n = d :: ds ∧ 48 ≤ d.toNat ∧ d.toNat ≤ 57 ∧
      (1 ≤ n → 49 ≤ d.toNat) := by
  intro fuel
  induction fuel with
  | zero => intro n h; omega
  | succ f ih =>
      intro n h
      by_cases h10 : n < 10
      · refine ⟨digCh n, [], ?_, ?_, ?_, ?_⟩ <;>
          simp only [natToDecAux, if_pos h10, digCh_toNat n h10] <;> omega
      · have hlt : n / 10 < f := by omega
        obtain ⟨d, ds, hd, hd1, hd2, hd3⟩ := ih (n / 10) hlt
        refine ⟨d, ds ++ [digCh (n % 10)], ?_, hd1, hd2, fun _ => hd3 (by omega)⟩
        simp only [natToDecAux, if_neg h10, hd, List.cons_append]

/-- Scanning the digits of `n` accumulates `n` onto `acc` (shifted by the
digit count) and continues with the rest. -/
theorem scanDigits_natToDecAux : ∀ (fuel n acc : Nat) (rest : List Char), n < fuel →
    scanDigits (natToDecAux fuel n ++ rest) acc =
      scanDigits rest (acc * 10 ^ (natToDecAux fuel n).length + n) := by
  intro fuel
  induction fuel with
  | zero => intro n acc rest h; omega
  | succ f ih =>
      intro n acc rest h
      by_cases h10 : n < 10
      · simp only [natToDecAux, if_pos h10, List.cons_append, List.nil_append,
          List.length_cons, List.length_nil, scanDigits, digCh_toNat n h10]
        rw [if_pos (by omega)]
        have : acc * 10 + (48 + n - 48) = acc * 10 ^ 1 + n := by ring_nf; omega
        rw [this]
      · have hlt : n / 10 < f := by omega
        simp only [natToDecAux, if_neg h10, List.append_assoc, List.cons_append,
          List.nil_append, List.length_append, List.length_cons, List.length_nil]
        rw [ih (n / 10) acc (digCh (n % 10) :: rest) hlt]
        simp only [scanDigits, digCh_toNat (n % 10) (by omega)]
        rw [if_pos (by omega)]
        congr 1
        have hm : 48 + n % 10 - 48 = n % 10 := by omega
        rw [hm]
        have hdm := Nat.div_add_mod n 10
        rw [show (natToDecAux f (n / 10)).length + (0 + 1) =
          (natToDecAux f (n / 10)).length + 1 from by omega, pow_succ]
        calc (acc * 10 ^ (natToDecAux f (n / 10)).length + n / 10) * 10 + n % 10
            = acc * (10 ^ (natToDecAux f (n / 10)).length * 10) +
              (n / 10 * 10 + n % 10) := by ring
          _ = acc * (10 ^ (natToDecAux f (n / 10)).length * 10) + n := by omega

/-- A digit scan on input with a non-digit head returns immediately. -/
theorem scanDigits_stop (rest : List Char) (acc : Nat) (h : nonDigitHead rest) :
    scanDigits rest acc = (acc, rest) := by
  match rest with
  | [] => rfl
  | c :: t =>
      simp only [nonDigitHead] at h
      simp only [scanDigits]
      rw [if_neg (by omega)]

/-- The magnitude scan inverts the decimal rendering. -/
theorem scanNumMag_natToDec (n : Nat) (rest : List Char) (h : nonDigitHead rest) :
    scanNumMag (natToDec n ++ rest) = some (n, rest) := by
  by_cases h0 : n = 0
  · subst h0
    rw [show natToDec 0 = ['0'] from rfl]
    rw [show (['0'] ++ rest : List Char) = '0' :: rest from rfl, scanNumMag, if_pos rfl]
  · obtain ⟨d, ds, hd, hd1, hd2, hd3⟩ := natToDecAux_head (n + 1) n (by omega)
    have hd9 : 49 ≤ d.toNat := hd3 (by omega)
    simp only [natToDec]
    rw [hd, List.cons_append, scanNumMag]
    rw [if_neg (char_ne_of_toNat_ne (by rw [show ('0' : Char).toNat = 48 from rfl]; omega))]
    rw [if_pos (by omega)]
    have := scanDigits_natToDecAux (n + 1) n 0 rest (by omega)
    rw [hd, List.cons_append] at this
    rw [this, scanDigits_stop rest _ h]
    simp

/-- The number scan inverts Python's decimal rendering of an int. -/
theorem scanNumber_dumpInt (i : Int) (rest : List Char) (h : nonDigitHead rest) :
    scanNumber (dumpInt i ++ rest) = some (i, rest) := by
  match i with
  | .ofNat m =>
      obtain ⟨d, ds, hd, hd1, hd2, _⟩ := natToDecAux_head (m + 1) m (by omega)
      have hdd : dumpInt (Int.ofNat m) ++ rest = d :: (ds ++ rest) := by
        simp only [dumpInt, natToDec]
        rw [hd, List.cons_append]
      rw [hdd, scanNumber]
      rw [if_neg (char_ne_of_toNat_ne (by rw [show ('-' : Char).toNat = 45 from rfl]; omega))]
      have hback : d :: (ds ++ rest) = natToDec m ++ rest := by
        simp only [natToDec]
        rw [hd, List.cons_append]
      rw [hback, scanNumMag_natToDec m rest h]
      rfl
  | .negSucc m =>
      rw [show dumpInt (Int.negSucc m) ++ rest = '-' :: (natToDec (m + 1) ++ rest) from rfl]
      rw [scanNumber, if_pos rfl, scanNumMag_natToDec (m + 1) rest h]
      simp [Int.negSucc_eq]

/-- The first character of a rendered int: a minus sign or a digit. -/
theorem dumpInt_head (i : Int) :
    ∃ c cs, dumpInt i = c :: cs ∧ (c.toNat = 45 ∨ (48 ≤ c.toNat ∧ c.toNat ≤ 57)) := by
  match i with
  | .ofNat m =>
      obtain ⟨d, ds, hd, hd1, hd2, _⟩ := natToDecAux_head (m + 1) m (by omega)
      exact ⟨d, ds, by rw [dumpInt, natToDec, hd], Or.inr ⟨hd1, hd2⟩⟩
  | .negSucc m =>
      exact ⟨'-', natToDec (m + 1), rfl, Or.inl rfl⟩

/-- The first character of any dumped value: a quote, `t`, `f`, a brace,
a bracket, a minus sign, or a digit. -/
theorem dumpJ_head (j : J) :
    ∃ c cs, dumpJ j = c :: cs ∧ (c.toNat = 34 ∨ c.toNat = 116 ∨ c.toNat = 102 ∨
      c.toNat = 123 ∨ c.toNat = 91 ∨ c.toNat = 45 ∨ (48 ≤ c.toNat ∧ c.toNat ≤ 57)) := by
  match j with
  | .str s => exact ⟨'"', escBody s.data ++ ['"'], rfl, by left; rfl⟩
  | .jint n =>
      obtain ⟨c, cs, hc, hcl⟩ := dumpInt_head n
      exact ⟨c, cs, by rw [dumpJ, hc], by omega⟩
  | .bool true => exact ⟨'t', ['r', 'u', 'e'], rfl, by right; left; rfl⟩
  | .bool false => exact ⟨'f', ['a', 'l', 's', 'e'], rfl, by right; right; left; rfl⟩
  | .arr .nil => exact ⟨'[', [']'], rfl, by decide⟩
  | .arr (.cons x xs) =>
      exact ⟨'[', (dumpJ x ++ dumpJLRest xs) ++ [']'], rfl, by decide⟩
  | .obj .nil => exact ⟨'\x7b', ['\x7d'], rfl, by decide⟩
  | .obj (.cons k v tl) =>
      exact ⟨'\x7b', (dumpStr k ++ ':' :: ' ' :: dumpJ v ++ dumpJMRest tl) ++ ['\x7d'], rfl,
        by decide⟩

/-- Whitespace skipping is the identity on input with a non-whitespace
head. -/
theorem jskipWs_nonWs (c : Char) (t : List Char)
    (h : c.toNat ≠ 32 ∧ c.toNat ≠ 9 ∧ c.toNat ≠ 10 ∧ c.toNat ≠ 13) :
    jskipWs (c :: t) = c :: t := by
  simp only [jskipWs]
  rw [if_neg (by omega)]

/-- Whitespace skipping eats a leading space. -/
theorem jskipWs_space (t : List Char) : jskipWs (' ' :: t) = jskipWs t := by
  simp only [jskipWs]
  rw [if_pos (by decide)]

/-- Whitespace skipping is the identity on a dumped value (followed by
anything). -/
theorem jskipWs_dumpJ (j : J) (r : List Char) :
    jskipWs (dumpJ j ++ r) = dumpJ j ++ r := by
  obtain ⟨c, cs, hc, hcl⟩ := dumpJ_head j
  rw [hc, List.cons_append, jskipWs_nonWs _ _ (by omega)]

/-- Every value has positive size. -/
theorem sizeJ_pos (j : J) : 1 ≤ sizeJ j := by
  cases j <;> simp [sizeJ]

theorem dumpStr_append (k : String) (X : List Char) :
    dumpStr k ++ X = '"' :: (escBody k.data ++ '"' :: X) := by
  simp [dumpStr]

theorem dumpArrCons_shape (x : J) (xs : JList) (rest : List Char) :
    dumpJ (.arr (.cons x xs)) ++ rest = '[' :: (dumpJ x ++ (dumpJLRest xs ++ ']' :: rest)) := by
  simp [dumpJ]

theorem dumpObjCons_shape (k : String) (v : J) (tl : JMembers) (rest : List Char) :
    dumpJ (.obj (.cons k v tl)) ++ rest =
      '\x7b' :: ('"' :: (escBody k.data ++
        '"' :: (':' :: ' ' :: (dumpJ v ++ (dumpJMRest tl ++ '\x7d' :: rest))))) := by
  simp [dumpJ, dumpStr]

theorem dumpMember_shape (k2 : String) (v2 : J) (t2 : JMembers) (rest : List Char) :
    (dumpStr k2 ++ ':' :: ' ' :: dumpJ v2 ++ dumpJMRest t2) ++ '\x7d' :: rest =
      '"' :: (escBody k2.data ++
        '"' :: (':' :: ' ' :: (dumpJ v2 ++ (dumpJMRest t2 ++ '\x7d' :: rest)))) := by
  simp [dumpStr]

theorem nonDigitHead_JLRest (xs : JList) (rest : List Char) :
    nonDigitHead (dumpJLRest xs ++ ']' :: rest) := by
  cases xs with
  | nil => exact Or.inr (by decide)
  | cons x t => exact Or.inl (by decide)

theorem nonDigitHead_JMRest (tl : JMembers) (rest : List Char) :
    nonDigitHead (dumpJMRest tl ++ '\x7d' :: rest) := by
  cases tl with
  | nil => exact Or.inr (by decide)
  | cons k v t => exact Or.inl (by decide)

theorem jskipWs_JLRest (xs : JList) (rest : List Char) :
    jskipWs (dumpJLRest xs ++ ']' :: rest) = dumpJLRest xs ++ ']' :: rest := by
  cases xs with
  | nil => exact jskipWs_nonWs _ _ (by decide)
  | cons x t =>
      rw [show dumpJLRest (.cons x t) ++ ']' :: rest =
        ',' :: (' ' :: (dumpJ x ++ dumpJLRest t) ++ ']' :: rest) from by simp [dumpJLRest]]
      exact jskipWs_nonWs _ _ (by decide)

theorem jskipWs_JMRest (tl : JMembers) (rest : List Char) :
    jskipWs (dumpJMRest tl ++ '\x7d' :: rest) = dumpJMRest tl ++ '\x7d' :: rest := by
  cases tl with
  | nil => exact jskipWs_nonWs _ _ (by decide)
  | cons k v t =>
      rw [show dumpJMRest (.cons k v t) ++ '\x7d' :: rest =
        ',' :: (' ' :: (dumpStr k ++ ':' :: ' ' :: dumpJ v ++ dumpJMRest t) ++ '\x7d' :: rest)
        from by simp [dumpJMRest]]
      exact jskipWs_nonWs _ _ (by decide)

/-- Main roundtrip invariant: with enough fuel, parsing a dumped value
(or member/element tail) returns it unchanged together with the rest of
the input. -/
theorem parse_dump : ∀ fuel : Nat,
    (∀ (j : J) (rest : List Char), sizeJ j ≤ fuel → nonDigitHead rest →
      parseVal fuel (dumpJ j ++ rest) = some (j, rest)) ∧
    (∀ (x : J) (xs : JList) (rest : List Char), 1 + sizeJ x + sizeJL xs ≤ fuel →
      parseElems fuel (dumpJ x ++ (dumpJLRest xs ++ ']' :: rest)) = some (.cons x xs, rest)) ∧
    (∀ (k : String) (v : J) (tl : JMembers) (rest : List Char),
      1 + sizeJ v + sizeJM tl ≤ fuel →
      parseMembers fuel ('"' :: (escBody k.data ++
        '"' :: (':' :: ' ' :: (dumpJ v ++ (dumpJMRest tl ++ '\x7d' :: rest))))) =
        some (.cons k v tl, rest)) := by
  intro fuel
  induction fuel with
  | zero =>
      refine ⟨fun j rest hsz _ => ?_, fun x xs rest hsz => ?_, fun k v tl rest hsz => ?_⟩
      · have := sizeJ_pos j; omega
      · omega
      · omega
  | succ f ih =>
      obtain ⟨ihA, ihB, ihC⟩ := ih
      have stepA : ∀ (j : J) (rest : List Char), sizeJ j ≤ f + 1 → nonDigitHead rest →
          parseVal (f + 1) (dumpJ j ++ rest) = some (j, rest) := by
        intro j rest hsz hnd
        match j with
        | .str s =>
            rw [show dumpJ (.str s) ++ rest = '"' :: (escBody s.data ++ '"' :: rest) from
              by simp [dumpJ, dumpStr]]
            simp only [parseVal, Char.reduceEq, reduceIte, scanStr_escBody, strMkData]
        | .jint n =>
            obtain ⟨d, ds, hd, hdc⟩ := dumpInt_head n
            have hsh : dumpJ (.jint n) ++ rest = d :: (ds ++ rest) := by
              rw [dumpJ, hd, List.cons_append]
            rw [hsh]
            simp only [parseVal]
            rw [if_neg (char_ne_of_toNat_ne (by rw [show ('"' : Char).toNat = 34 from rfl]; omega)),
              if_neg (char_ne_of_toNat_ne (by rw [show ('t' : Char).toNat = 116 from rfl]; omega)),
              if_neg (char_ne_of_toNat_ne (by rw [show ('f' : Char).toNat = 102 from rfl]; omega)),
              if_neg (char_ne_of_toNat_ne (by rw [show ('\x7b' : Char).toNat = 123 from rfl]; omega)),
              if_neg (char_ne_of_toNat_ne (by rw [show ('[' : Char).toNat = 91 from rfl]; omega))]
            rw [show d :: (ds ++ rest) = dumpInt n ++ rest from by rw [hd, List.cons_append]]
            rw [scanNumber_dumpInt n rest hnd]
        | .bool true => rfl
        | .bool false => rfl
        | .arr .nil => rfl
        | .arr (.cons x xs) =>
            rw [dumpArrCons_shape]
            simp only [parseVal, Char.reduceEq, reduceIte]
            rw [jskipWs_dumpJ x (dumpJLRest xs ++ ']' :: rest)]
            obtain ⟨c, cs, hc, hcl⟩ := dumpJ_head x
            rw [hc, List.cons_append]
            simp only []
            rw [if_neg (char_ne_of_toNat_ne (by rw [show (']' : Char).toNat = 93 from rfl]; omega))]
            rw [show c :: (cs ++ (dumpJLRest xs ++ ']' :: rest)) =
              dumpJ x ++ (dumpJLRest xs ++ ']' :: rest) from by rw [hc, List.cons_append]]
            rw [ihB x xs rest (by simp only [sizeJ, sizeJL] at hsz ⊢; omega)]
        | .obj .nil => rfl
        | .obj (.cons k v tl) =>
            rw [dumpObjCons_shape]
            simp only [parseVal, Char.reduceEq, reduceIte]
            rw [jskipWs_nonWs _ _ (by decide)]
            simp only []
            rw [if_neg (by decide)]
            rw [ihC k v tl rest (by simp only [sizeJ, sizeJM] at hsz ⊢; omega)]
      refine ⟨stepA, ?_, ?_⟩
      · intro x xs rest hsz
        simp only [parseElems]
        rw [ihA x (dumpJLRest xs ++ ']' :: rest) (by omega) (nonDigitHead_JLRest xs rest)]
        simp only []
        rw [jskipWs_JLRest]
        cases xs with
        | nil =>
            simp only [dumpJLRest, List.nil_append]
            rw [if_neg (by decide)]
            simp only [if_true]
        | cons x2 xs2 =>
            rw [show dumpJLRest (.cons x2 xs2) ++ ']' :: rest =
              ',' :: (' ' :: (dumpJ x2 ++ (dumpJLRest xs2 ++ ']' :: rest))) from
              by simp [dumpJLRest]]
            simp only [if_true]
            rw [jskipWs_space, jskipWs_dumpJ]
            rw [ihB x2 xs2 rest (by simp only [sizeJL] at hsz ⊢; omega)]
      · intro k v tl rest hsz
        simp only [parseMembers]
        simp only [Char.reduceEq, reduceIte]
        rw [scanStr_escBody]
        simp only []
        rw [jskipWs_nonWs _ _ (by decide)]
        simp only [Char.reduceEq, reduceIte]
        rw [jskipWs_space, jskipWs_dumpJ]
        rw [ihA v (dumpJMRest tl ++ '\x7d' :: rest) (by omega) (nonDigitHead_JMRest tl rest)]
        simp only []
        rw [jskipWs_JMRest]
        cases tl with
        | nil =>
            simp only [dumpJMRest, List.nil_append]
            rw [if_neg (by decide)]
            simp only [if_true, strMkData]
        | cons k2 v2 t2 =>
            rw [show dumpJMRest (.cons k2 v2 t2) ++ '\x7d' :: rest =
              ',' :: (' ' :: ((dumpStr k2 ++ ':' :: ' ' :: dumpJ v2 ++ dumpJMRest t2) ++
                '\x7d' :: rest)) from by simp [dumpJMRest]]
            simp only [Char.reduceEq, reduceIte]
            rw [jskipWs_space, dumpMember_shape, jskipWs_nonWs _ _ (by decide)]
            rw [ihC k2 v2 t2 rest (by simp only [sizeJM] at hsz ⊢; omega)]

mutual

/-- A value's structural size is at most its dump's length. -/
theorem sizeJ_le_len : (j : J) → sizeJ j ≤ (dumpJ j).length
  | .str s => by simp [sizeJ, dumpJ, dumpStr]
  | .jint n => by
      obtain ⟨c, cs, hc, _⟩ := dumpInt_head n
      simp [sizeJ, dumpJ, hc]
  | .bool b => by cases b <;> simp [sizeJ, dumpJ]
  | .arr .nil => by simp [sizeJ, sizeJL, dumpJ]
  | .arr (.cons x xs) => by
      have h1 := sizeJ_le_len x
      have h2 := sizeJL_le_len xs
      simp only [sizeJ, sizeJL, dumpJ, List.length_cons, List.length_append]
      omega
  | .obj .nil => by simp [sizeJ, sizeJM, dumpJ]
  | .obj (.cons k v tl) => by
      have h1 := sizeJ_le_len v
      have h2 := sizeJM_le_len tl
      simp only [sizeJ, sizeJM, dumpJ, List.length_cons, List.length_append]
      omega

theorem sizeJL_le_len : (xs : JList) → sizeJL xs ≤ (dumpJLRest xs).length
  | .nil => by simp [sizeJL, dumpJLRest]
  | .cons x xs => by
      have h1 := sizeJ_le_len x
      have h2 := sizeJL_le_len xs
      simp only [sizeJL, dumpJLRest, List.length_cons, List.length_append]
      omega

theorem sizeJM_le_len : (tl : JMembers) → sizeJM tl ≤ (dumpJMRest tl).length
  | .nil => by simp [sizeJM, dumpJMRest]
  | .cons k v tl => by
      have h1 := sizeJ_le_len v
      have h2 := sizeJM_le_len tl
      simp only [sizeJM, dumpJMRest, List.length_cons, List.length_append]
      omega

end

/-- `json.load` inverts `json.dumps`: parsing a dumped value returns it. -/
theorem pyJsonParse_plainDump (j : J) : pyJsonParse (plainDump j) = some j := by
  have hdata : (plainDump j).data = dumpJ j := rfl
  have hlen : (plainDump j).length = (dumpJ j).length := rfl
  have hskip : jskipWs (dumpJ j) = dumpJ j := by
    have := jskipWs_dumpJ j []
    simpa using this
  have hparse : parseVal ((dumpJ j).length + 1) (dumpJ j) = some (j, []) := by
    have := (parse_dump ((dumpJ j).length + 1)).1 j []
      (by have := sizeJ_le_len j; omega) trivial
    simpa using this
  rw [pyJsonParse, hdata, hlen, hskip, hparse]
  rfl

/-! ## Plan codec: `save_plan` / `load_plan`

`save_plan` (source lines 804–837) builds
`{"plan": {"instance_dict": ..., "searchtags_dict": ...}}`, computes
`hashlib.md5(json.dumps(plan, sort_keys=True, ensure_ascii=True)).hexdigest()`,
wraps it with `{"timestamp": int(time.time()), "checksum": ...}` metadata,
and writes `json.dumps(output_dict)`.  The model returns the written file
text; the digest is the explicit `hash` parameter; the file write itself
is I/O outside the model.

`load_plan` (source lines 840–890) parses the file, checks the structure,
recomputes the checksum over the loaded `plan` substructure with the same
canonicalization, compares it against `metadata["checksum"]`, reports the
plan age, and returns `(searchtags_dict, instance_dict)`.
-/

/-- The `plan` sub-object exactly as `save_plan` builds it (insertion
order: `instance_dict` then `searchtags_dict`). -/
def planObj (searchtags_dict instance_dict : J) : J :=
  .obj (.cons "instance_dict" instance_dict (.cons "searchtags_dict" searchtags_dict .nil))

/-- The file text `save_plan` writes. -/
def save_plan (hash : String → String) (timestamp : Int)
    (searchtags_dict instance_dict : J) : String :=
  plainDump (.obj (.cons "plan" (planObj searchtags_dict instance_dict)
    (.cons "metadata" (.obj (.cons "timestamp" (.jint timestamp)
      (.cons "checksum" (.str (hash (canonDump (planObj searchtags_dict instance_dict))))
        .nil))) .nil)))

/-- How a `load_plan` run can fail.  `jsonDecodeErr`, `planAccessErr` and
`metadataAccessErr` are uncaught Python exceptions (only `OSError` and
`FileExistsError` are caught around `json.load`, and the metadata /
returned-plan subscript accesses are bare); the others are the script's
own `sys.exit` messages. -/
inductive LoadErr where
  | jsonDecodeErr
  | notDict
  | missingTop
  | missingPlanElems
  | planAccessErr
  | metadataAccessErr
  | checksumMismatch

/-- `load_plan` on the file text.  A non-dict `plan` value cannot both
pass the membership checks and the final dict subscripts, so Python's
intermediate behaviours for it (`in` on strings/lists, `TypeError`
otherwise) are collapsed into `planAccessErr`; every input the claims
exercise has a dict `plan`. -/
def load_plan (hash : String → String) (fileText : String) : Except LoadErr (J × J) :=
  match pyJsonParse fileText with
  | none => .error .jsonDecodeErr
  | some (.obj kvs) =>
    if !hasKeyJM kvs "metadata" || !hasKeyJM kvs "plan" then .error .missingTop
    else
      match lookupJM kvs "plan" with
      | some (.obj pkvs) =>
        if !hasKeyJM pkvs "searchtags_dict" || !hasKeyJM pkvs "instance_dict" then
          .error .missingPlanElems
        else
          match lookupJM kvs "metadata" with
          | some (.obj mkvs) =>
            match lookupJM mkvs "checksum" with
            | some (.str cs) =>
              if cs = hash (canonDump (.obj pkvs)) then
                match lookupJM mkvs "timestamp" with
                | some (.jint _) =>
                  match lookupJM pkvs "searchtags_dict", lookupJM pkvs "instance_dict" with
                  | some st, some inst => .ok (st, inst)
                  | _, _ => .error .missingPlanElems
                | _ => .error .metadataAccessErr
              else .error .checksumMismatch
            | some _ => .error .checksumMismatch
            | none => .error .metadataAccessErr
          | _ => .error .metadataAccessErr
      | some _ => .error .planAccessErr
      | none => .error .missingTop
  | some _ => .error .notDict

/-- C3: for every plan (any searchtags mapping and instance mapping, with
any digest function and timestamp), saving it to a file and loading that
file unmodified succeeds — in particular the checksum verification passes
— and returns the searchtags mapping and instance mapping structurally
equal to the originals. -/
theorem c3_save_load_roundtrip (hash : String → String) (ts : Int)
    (searchtags_dict instance_dict : J)
    (hst : nodupJ searchtags_dict = true) (hinst : nodupJ instance_dict = true) :
    load_plan hash (save_plan hash ts searchtags_dict instance_dict) =
      .ok (searchtags_dict, instance_dict) := by
  rw [load_plan, save_plan, pyJsonParse_plainDump]
  simp only [planObj, hasKeyJM, lookupJM, String.reduceEq, reduceIte, Option.isSome,
    Bool.not_true, Bool.not_false, Bool.or_self, Bool.false_or, Bool.or_false]
  rfl

/-- Witness for C3 at a concrete plan. -/
theorem c3_save_load_roundtrip_witness :
    load_plan id (save_plan id 1700000000
        (.obj (.cons "Env" (.str "dev") .nil))
        (.obj (.cons "i-1" (.obj (.cons "IPAddress" (.str "10.0.0.1")
          (.cons "Name" (.str "web") .nil))) .nil))) =
      .ok (.obj (.cons "Env" (.str "dev") .nil),
        .obj (.cons "i-1" (.obj (.cons "IPAddress" (.str "10.0.0.1")
          (.cons "Name" (.str "web") .nil))) .nil)) :=
  c3_save_load_roundtrip id 1700000000 _ _ (by rfl) (by rfl)

/-- Number of positions at which two character lists differ. -/
def diffCount : List Char → List Char → Nat
  | [], ys => ys.length
  | x :: xs, [] => (x :: xs).length
  | x :: xs, y :: ys => (if x = y then 0 else 1) + diffCount xs ys

/-- A small searchtags mapping, as `process_searchtags` would produce. -/
def cexSearchtags : J := .obj (.cons "Env" (.str "dev") .nil)

/-- A small instance mapping of the shape the discovery phase builds. -/
def cexInstances : J :=
  .obj (.cons "i-1" (.obj (.cons "IPAddress" (.str "10.0.0.1")
    (.cons "Name" (.str "web") .nil))) .nil)

/-- The saved artifact for `cexSearchtags`/`cexInstances` (digest
stand-in `id`), split right at the space that follows the
`"instance_dict"` key inside the persisted `plan` substructure. -/
def c2A : String := "\x7b\"plan\": \x7b\"instance_dict\":"

/-- The artifact text after that space. -/
def c2B : String := "\x7b\"i-1\": \x7b\"IPAddress\": \"10.0.0.1\", \"Name\": \"web\"\x7d\x7d, \"searchtags_dict\": \x7b\"Env\": \"dev\"\x7d\x7d, \"metadata\": \x7b\"timestamp\": 1700000000, \"checksum\": \"\x7b\\\"instance_dict\\\": \x7b\\\"i-1\\\": \x7b\\\"IPAddress\\\": \\\"10.0.0.1\\\", \\\"Name\\\": \\\"web\\\"\x7d\x7d, \\\"searchtags_dict\\\": \x7b\\\"Env\\\": \\\"dev\\\"\x7d\x7d\"\x7d\x7d"

set_option maxRecDepth 200000 in
/-- C2 counterexample: replacing the single space after the
`"instance_dict"` key of a saved artifact — a one-character mutation
inside the persisted `plan` substructure — by a tab yields a file that
`load_plan` accepts: it parses to the same plan, so the recomputed
checksum matches the stored one and loading succeeds instead of failing
with the integrity-mismatch error. -/
theorem c2_whitespace_mutation_loads :
    save_plan id 1700000000 cexSearchtags cexInstances = c2A ++ " " ++ c2B ∧
    diffCount (c2A ++ " " ++ c2B).data (c2A ++ "\t" ++ c2B).data = 1 ∧
    load_plan id (c2A ++ "\t" ++ c2B) = .ok (cexSearchtags, cexInstances) :=
  ⟨by rfl, by rfl, by rfl⟩

theorem hasKeyJM_of_lookup {kvs : JMembers} {k : String} {v : J}
    (h : lookupJM kvs k = some v) : hasKeyJM kvs k = true := by
  rw [hasKeyJM, h]; rfl

/-- C2 amended: a mutation that keeps the artifact parseable with the
required shape but changes the canonical serialization of the parsed
`plan` substructure makes `load_plan` fail with the integrity-mismatch
error, provided the digest is collision-free on the strings involved
(whitespace-level mutations, which leave the parsed plan unchanged, load
successfully instead — see the counterexample). -/
theorem c2_amended_changed_plan_fails_integrity (hash : String → String)
    (hinj : ∀ a b : String, hash a = hash b → a = b)
    (m : String) (kvs pkvs mkvs : JMembers) (cs s0 : String)
    (hparse : pyJsonParse m = some (.obj kvs))
    (hplan : lookupJM kvs "plan" = some (.obj pkvs))
    (hmeta : lookupJM kvs "metadata" = some (.obj mkvs))
    (hcs : lookupJM mkvs "checksum" = some (.str cs))
    (hst : hasKeyJM pkvs "searchtags_dict" = true)
    (hinst : hasKeyJM pkvs "instance_dict" = true)
    (hstored : cs = hash s0)
    (hdiff : canonDump (.obj pkvs) ≠ s0) :
    load_plan hash m = .error .checksumMismatch := by
  rw [load_plan, hparse]
  simp only []
  rw [hasKeyJM_of_lookup hplan, hasKeyJM_of_lookup hmeta]
  rw [if_neg (by simp)]
  rw [hplan]
  simp only []
  rw [hst, hinst]
  rw [if_neg (by simp)]
  rw [hmeta]
  simp only []
  rw [hcs]
  simp only []
  have hne : ¬(cs = hash (canonDump (.obj pkvs))) := by
    intro he
    exact hdiff (hinj _ _ (by rw [← he, hstored]))
  rw [if_neg hne]

/-- The instance mapping with one digit of the private IP changed. -/
def cexInstancesMut : J :=
  .obj (.cons "i-1" (.obj (.cons "IPAddress" (.str "10.0.0.2")
    (.cons "Name" (.str "web") .nil))) .nil)

/-- The artifact whose `plan` substructure carries the changed digit
while the stored checksum is still the one computed over the original
plan: the file a one-character content mutation produces. -/
def c2MutArtifact : String :=
  plainDump (.obj (.cons "plan" (planObj cexSearchtags cexInstancesMut)
    (.cons "metadata" (.obj (.cons "timestamp" (.jint 1700000000)
      (.cons "checksum" (.str (canonDump (planObj cexSearchtags cexInstances))) .nil))) .nil)))

set_option maxRecDepth 200000 in
/-- Witness for the amended C2 at a concrete digit mutation. -/
theorem c2_amended_witness :
    load_plan id c2MutArtifact = .error .checksumMismatch :=
  c2_amended_changed_plan_fails_integrity id (fun _ _ h => h) c2MutArtifact
    (.cons "plan" (planObj cexSearchtags cexInstancesMut)
      (.cons "metadata" (.obj (.cons "timestamp" (.jint 1700000000)
        (.cons "checksum" (.str (canonDump (planObj cexSearchtags cexInstances))) .nil)))
        .nil))
    (.cons "instance_dict" cexInstancesMut (.cons "searchtags_dict" cexSearchtags .nil))
    (.cons "timestamp" (.jint 1700000000)
      (.cons "checksum" (.str (canonDump (planObj cexSearchtags cexInstances))) .nil))
    (canonDump (planObj cexSearchtags cexInstances))
    (canonDump (planObj cexSearchtags cexInstances))
    (pyJsonParse_plainDump _) (by rfl) (by rfl) (by rfl) (by rfl) (by rfl) rfl (by decide)

/-! ## Plan-age formatter: `seconds_to_dhms` (source lines 769–801) -/

/-- `seconds_to_dhms`: decompose a non-negative number of seconds into
days/hours/minutes/seconds and render it, omitting zero components except
the seconds, which always appear (with the trailing `"ago"`). -/
def seconds_to_dhms (total_seconds : Nat) : String :=
  let seconds := total_seconds % 60
  let total_minutes := total_seconds / 60
  let total_hours := total_minutes / 60
  let minutes := total_minutes % 60
  let days := total_hours / 24
  let hours := total_hours % 24
  (if days > 0 then
      toString days ++ " " ++ (if days = 1 then "day" else "days") ++ ", "
    else "") ++
  (if hours > 0 then
      toString hours ++ " " ++ (if hours = 1 then "hour" else "hours") ++ ", "
    else "") ++
  (if minutes > 0 then
      toString minutes ++ " " ++ (if minutes = 1 then "minute" else "minutes") ++ ", "
    else "") ++
  toString seconds ++ " seconds ago"

/-- C9: for every non-negative integer `total_seconds`, the formatter's
components satisfy `days*86400 + hours*3600 + minutes*60 + seconds =
total_seconds` with `seconds < 60`, `minutes < 60`, `hours < 24`, and the
rendered string consists of the day, hour and minute parts — each present
exactly when its component is nonzero — followed by the always-present
seconds part. -/
theorem c9_dhms_decomposition (total_seconds : Nat) :
    ∃ days hours minutes seconds : Nat,
      days * 86400 + hours * 3600 + minutes * 60 + seconds = total_seconds ∧
      seconds < 60 ∧ minutes < 60 ∧ hours < 24 ∧
      seconds_to_dhms total_seconds =
        (if days > 0 then
            toString days ++ " " ++ (if days = 1 then "day" else "days") ++ ", "
          else "") ++
        (if hours > 0 then
            toString hours ++ " " ++ (if hours = 1 then "hour" else "hours") ++ ", "
          else "") ++
        (if minutes > 0 then
            toString minutes ++ " " ++ (if minutes = 1 then "minute" else "minutes") ++ ", "
          else "") ++
        toString seconds ++ " seconds ago" := by
  refine ⟨total_seconds / 60 / 60 / 24, total_seconds / 60 / 60 % 24,
    total_seconds / 60 % 60, total_seconds % 60, ?_, ?_, ?_, ?_, rfl⟩
  · omega
  · omega
  · omega
  · omega

/-! ## Interactive selectors

The prompt loops are modelled as functions of the (finite) list of
operator answers; `none` means the answer list ran out (Python would
keep blocking on `input()`).  `pyParseInt` models `int(str)` on the
plain decimal answers these prompts receive: optional surrounding ASCII
whitespace, an optional sign, and decimal digits.
-/

/-- Characters `int(str)` strips around a number. -/
def pyWsChar (c : Char) : Bool :=
  c.toNat = 32 || c.toNat = 9 || c.toNat = 10 || c.toNat = 11 || c.toNat = 12 || c.toNat = 13

/-- Value of a non-empty all-digit character list. -/
def digitsValAux : List Char → Nat → Option Nat
  | [], acc => some acc
  | c :: r, acc =>
      if 48 ≤ c.toNat ∧ c.toNat ≤ 57 then digitsValAux r (acc * 10 + (c.toNat - 48))
      else none

/-- Value of a digit run; `none` on an empty or non-digit input. -/
def digitsVal : List Char → Option Nat
  | [] => none
  | c :: r => digitsValAux (c :: r) 0

/-- `int(str)`: strip whitespace, optional sign, digits. -/
def pyParseInt (s : String) : Option Int :=
  let cs := ((s.data.dropWhile (fun c => pyWsChar c)).reverse.dropWhile
    (fun c => pyWsChar c)).reverse
  match cs with
  | '-' :: rest => (digitsVal rest).map (fun n => -(n : Int))
  | '+' :: rest => (digitsVal rest).map (fun n => (n : Int))
  | rest => (digitsVal rest).map (fun n => (n : Int))

/-- An answer the numeric selection loop re-prompts on: it either fails
`int()` or is out of range `0 .. n-1`. -/
def invalidAnswer (n : Nat) (b : String) : Prop :=
  match pyParseInt b with
  | none => True
  | some v => ¬(0 ≤ v ∧ v ≤ (n : Int) - 1)

/-! ### `get_volume_choice` (source lines 186–259, device selection)

On a numeric selection the source runs

    for index, device in enumerate(instance_dict[instance_id]["BlockDevs"]):
        if index != selection_int:
            del instance_dict[instance_id]["BlockDevs"][index]

Python's list iterator keeps a bare position cursor, so deleting the
element at the cursor shifts the remainder left and the next step skips
one element.  `enumDelLoop` reproduces this: position `i` over the
shrinking list, one `eraseIdx` per non-matching position.  Fuel
`l.length` suffices: every iteration decreases `l.length - i`. -/

def enumDelLoop {α : Type} (sel : Nat) : Nat → Nat → List α → List α
  | 0, _, l => l
  | fuel + 1, i, l =>
      if i < l.length then
        if i ≠ sel then enumDelLoop sel fuel (i + 1) (l.eraseIdx i)
        else enumDelLoop sel fuel (i + 1) l
      else l

/-- The state effect of a numeric device selection. -/
def volume_choice_narrow {α : Type} (devs : List α) (sel : Nat) : List α :=
  enumDelLoop sel devs.length 0 devs

/-- `get_volume_choice`, restricted to its effect on the block-device
list: `"A"`/`"a"` keeps the whole list, the first in-range numeric
answer triggers the delete loop, anything else re-prompts. -/
def get_volume_choice {α : Type} (devs : List α) : List String → Option (List α)
  | [] => none
  | a :: rest =>
      if a = "A" ∨ a = "a" then some devs
      else
        match pyParseInt a with
        | none => get_volume_choice devs rest
        | some v =>
            if 0 ≤ v ∧ v ≤ (devs.length : Int) - 1 then
              some (volume_choice_narrow devs v.toNat)
            else get_volume_choice devs rest

/-- C4: the device-selection step does not narrow the list to the chosen
device once the list has three or more entries: deleting while iterating
skips elements.  For a three-device list and the valid answer `1`, the
code keeps devices 1 *and* 2 instead of exactly device 1 (the `"A"`
answer does return the list unchanged). -/
theorem c4_delete_during_iteration_bug :
    get_volume_choice ["d0", "d1", "d2"] ["1"] = some ["d1", "d2"] ∧
    (["d1", "d2"] : List String) ≠ ["d1"] ∧
    get_volume_choice ["d0", "d1", "d2"] ["A"] = some ["d0", "d1", "d2"] := by
  refine ⟨by rfl, by decide, by rfl⟩

/-! ### `get_snapshot_choice` (source lines 365–431, snapshot selection)

On a numeric selection the source collects every non-selected index into
`omit_indexes` (ascending), reverses it, and then runs

    for snapshot_index, snapshot_data in enumerate(block_device["SnapshotData"]):
        for omit_index in omit_indexes:
            del block_device["SnapshotData"][omit_index]

The inner loop performs all deletions (descending indices, so each is
valid) during the first outer iteration; afterwards the list has length
one, so the outer iterator stops. -/

/-- Delete the given indices in order (the inner `for omit_index ...`
loop). -/
def delDescending {α : Type} (l : List α) (idxs : List Nat) : List α :=
  idxs.foldl (fun acc i => acc.eraseIdx i) l

/-- `omit_indexes` after the `reverse()`: all indices of `range n`
except `sel`, descending. -/
def omitIdx (n sel : Nat) : List Nat :=
  ((List.range n).filter (fun i => i ≠ sel)).reverse

/-- The outer `for ... in enumerate(...)` loop with Python's shrinking
iterator semantics; the inner deletions run on every iteration.  Fuel
`l.length` suffices, as in `enumDelLoop`. -/
def snapDelOuter {α : Type} (idxs : List Nat) : Nat → Nat → List α → List α
  | 0, _, l => l
  | fuel + 1, i, l =>
      if i < l.length then snapDelOuter idxs fuel (i + 1) (delDescending l idxs)
      else l

/-- The state effect of a snapshot selection on one device's list. -/
def snapshot_choice_narrow {α : Type} (snaps : List α) (sel : Nat) : List α :=
  snapDelOuter (omitIdx snaps.length sel) snaps.length 0 snaps

/-- `get_snapshot_choice` for one device, over the operator answers. -/
def get_snapshot_choice {α : Type} (snaps : List α) : List String → Option (List α)
  | [] => none
  | a :: rest =>
      match pyParseInt a with
      | none => get_snapshot_choice snaps rest
      | some v =>
          if 0 ≤ v ∧ v ≤ (snaps.length : Int) - 1 then
            some (snapshot_choice_narrow snaps v.toNat)
          else get_snapshot_choice snaps rest

theorem range_filter_ne (n k : Nat) (hk : k < n) :
    (List.range n).filter (fun i => i ≠ k) =
      List.range k ++ List.range' (k + 1) (n - (k + 1)) := by
  induction n with
  | zero => omega
  | succ m ih =>
      rw [List.range_succ, List.filter_append]
      by_cases hkm : k < m
      · rw [ih hkm]
        have hm : (List.filter (fun i => decide (i ≠ k)) [m]) = [m] := by
          simp only [List.filter_cons, List.filter_nil, decide_eq_true_eq]
          rw [if_pos (by omega)]
        rw [hm, List.append_assoc]
        congr 1
        rw [show m + 1 - (k + 1) = (m - (k + 1)) + 1 from by omega, List.range'_concat]
        congr 1
        rw [show k + 1 + 1 * (m - (k + 1)) = m from by omega]
      · have hkm2 : k = m := by omega
        subst hkm2
        have h1 : (List.filter (fun i => decide (i ≠ k)) [k]) = [] := by
          simp [List.filter_cons]
        have h2 : (List.range k).filter (fun i => decide (i ≠ k)) = List.range k := by
          rw [List.filter_eq_self]
          intro a ha
          simp only [decide_eq_true_eq]
          have := List.mem_range.mp ha
          omega
        rw [h1, h2, show k + 1 - (k + 1) = 0 from by omega]
        rfl

/-- Erasing the descending run `j + m - 1, ..., j` truncates the list to
its first `j` elements. -/
theorem foldl_eraseIdx_top {α : Type} : ∀ (m : Nat) (l : List α) (j : Nat),
    j + m = l.length →
    List.foldl (fun acc i => acc.eraseIdx i) l ((List.range' j m).reverse) = l.take j := by
  intro m
  induction m with
  | zero =>
      intro l j hj
      simp only [List.range', List.reverse_nil, List.foldl_nil]
      rw [show j = l.length from by omega, List.take_length]
  | succ m ih =>
      intro l j hj
      rw [List.range'_concat, show j + 1 * m = j + m from by omega, List.reverse_append,
        List.reverse_cons, List.reverse_nil, List.nil_append, List.singleton_append,
        List.foldl_cons]
      have hlen : (l.eraseIdx (j + m)).length = j + m := by
        rw [List.length_eraseIdx, if_pos (by omega)]
        omega
      rw [ih (l.eraseIdx (j + m)) j (by omega)]
      rw [List.eraseIdx_eq_take_drop_succ]
      rw [List.take_append_of_le_length (by rw [List.length_take]; omega)]
      rw [List.take_take, show j ⊓ (j + m) = j from by omega]

/-- Erasing the descending run `k - 1, ..., 0` drops the first `k`
elements. -/
theorem foldl_eraseIdx_bottom {α : Type} : ∀ (k : Nat) (l : List α),
    k ≤ l.length →
    List.foldl (fun acc i => acc.eraseIdx i) l ((List.range k).reverse) = l.drop k := by
  intro k
  induction k with
  | zero => intro l _; simp
  | succ m ih =>
      intro l hk
      rw [List.range_succ, List.reverse_append, List.reverse_cons, List.reverse_nil,
        List.nil_append, List.singleton_append, List.foldl_cons]
      have hlen : (l.eraseIdx m).length = l.length - 1 := by
        rw [List.length_eraseIdx, if_pos (by omega)]
      rw [ih (l.eraseIdx m) (by omega)]
      rw [List.eraseIdx_eq_take_drop_succ]
      rw [List.drop_left' (by rw [List.length_take]; omega)]

/-- The inner deletion loop keeps exactly the selected element. -/
theorem delDescending_omitIdx {α : Type} (l : List α) (k : Nat) (hk : k < l.length) :
    delDescending l (omitIdx l.length k) = [l.get ⟨k, hk⟩] := by
  rw [delDescending, omitIdx, range_filter_ne _ _ hk, List.reverse_append,
    List.foldl_append]
  rw [foldl_eraseIdx_top (l.length - (k + 1)) l (k + 1) (by omega)]
  rw [foldl_eraseIdx_bottom k (l.take (k + 1)) (by rw [List.length_take]; omega)]
  rw [List.drop_take]
  rw [show k + 1 - k = 1 from by omega]
  rw [List.drop_eq_getElem_cons hk]
  rfl

theorem snapDelOuter_stop {α : Type} (idxs : List Nat) (fuel i : Nat) (l : List α)
    (h : ¬ i < l.length) : snapDelOuter idxs fuel i l = l := by
  cases fuel with
  | zero => rfl
  | succ f =>
      simp only [snapDelOuter]
      rw [if_neg h]

/-- The snapshot narrowing keeps exactly the selected snapshot. -/
theorem snapshot_choice_narrow_eq {α : Type} (snaps : List α) (k : Nat)
    (hk : k < snaps.length) :
    snapshot_choice_narrow snaps k = [snaps.get ⟨k, hk⟩] := by
  have hd := delDescending_omitIdx snaps k hk
  obtain ⟨n, hn⟩ : ∃ n, snaps.length = n + 1 := ⟨snaps.length - 1, by omega⟩
  have key : snapDelOuter (omitIdx snaps.length k) (n + 1) 0 snaps = [snaps.get ⟨k, hk⟩] := by
    simp only [snapDelOuter]
    rw [if_pos (by omega), hd]
    exact snapDelOuter_stop _ _ _ _ (by simp)
  calc snapshot_choice_narrow snaps k
      = snapDelOuter (omitIdx snaps.length k) snaps.length 0 snaps := rfl
    _ = snapDelOuter (omitIdx snaps.length k) (n + 1) 0 snaps :=
        congrArg (fun f => snapDelOuter (omitIdx snaps.length k) f 0 snaps) hn
    _ = [snaps.get ⟨k, hk⟩] := key

/-- C7: for every device with a non-empty snapshot candidate list and
every answer sequence whose first valid answer is the in-range index
`k`, the snapshot-selection step leaves the device's snapshot list
containing exactly one element — the snapshot that was at index `k` of
the original list; all other candidates are discarded. -/
theorem c7_snapshot_selection_keeps_chosen {α : Type} (snaps : List α)
    (pre rest : List String) (a : String) (k : Nat) (hk : k < snaps.length)
    (hpre : ∀ b ∈ pre, invalidAnswer snaps.length b)
    (ha : pyParseInt a = some (k : Int)) :
    get_snapshot_choice snaps (pre ++ a :: rest) = some [snaps.get ⟨k, hk⟩] := by
  induction pre with
  | nil =>
      simp only [List.nil_append, get_snapshot_choice, ha]
      rw [if_pos ⟨Int.natCast_nonneg k, by push_cast; omega⟩]
      rw [Int.toNat_natCast]
      rw [snapshot_choice_narrow_eq snaps k hk]
  | cons b pre ih =>
      have hb := hpre b (by simp)
      simp only [List.cons_append, get_snapshot_choice]
      cases hpb : pyParseInt b with
      | none =>
          simp only []
          exact ih (fun x hx => hpre x (by simp [hx]))
      | some v =>
          simp only []
          unfold invalidAnswer at hb
          rw [hpb] at hb
          simp only [] at hb
          rw [if_neg hb]
          exact ih (fun x hx => hpre x (by simp [hx]))

/-- Witness for C7: three candidates, answers `"x"`, `"9"` (invalid) then
`"1"`. -/
theorem c7_witness :
    get_snapshot_choice ["s0", "s1", "s2"] (["x", "9"] ++ "1" :: []) = some ["s1"] :=
  c7_snapshot_selection_keeps_chosen ["s0", "s1", "s2"] ["x", "9"] [] "1" 1 (by decide)
    (by
      intro b hb
      simp only [List.mem_cons, List.not_mem_nil, or_false] at hb
      rcases hb with h | h <;> subst h
      · exact trivial
      · exact (by decide : ¬((0 : Int) ≤ (9 : Int) ∧ (9 : Int) ≤ (3 : Int) - 1)))
    (by rfl)

/-! ## Restore orchestrator

`manage_restore_process` (source lines 740–766) and its helpers are
modelled as functions from an abstract gateway oracle to the list of
gateway calls they issue plus an outcome: `some _` when the Python
function returns, `none` when the process dies there (a `sys.exit` from
`validate_response` on a non-200 response, or an uncaught exception).
The oracle fixes, per resource, the HTTP status each mutating call gets
and the outcome of every waiter poll loop: `volAvailOk` is the
`volume_available` waiter, consulted for the freshly created volume ids
(after create) and for the original volume ids (after detach);
`stopWaitOk`, `startWaitOk` and `inUseWaitOk` are the
`instance_stopped`, `instance_running` and `volume_in_use` waiters.  A
`false` outcome is the `WaiterError` of an exhausted poll budget: the
create step then records a missing new-volume id, while the stop, start,
detach and attach steps catch it, print, and fall through unchanged.
-/

/-- One gateway interaction, as observable from the call sequence. -/
inductive GCall where
  | createVolume (deviceName snapshotId : String)
  | waitVolumeAvailable (volumeId : String)
  | stopInstance (instanceId : String)
  | waitInstanceStopped (instanceId : String)
  | startInstance (instanceId : String)
  | waitInstanceRunning (instanceId : String)
  | detachVolume (instanceId volumeId deviceName : String)
  | attachVolume (instanceId volumeId deviceName : String)
  | waitVolumeInUse (volumeId : String)

/-- The gateway oracle: responses of the AWS control plane. -/
structure Gateway where
  createStatus : String → Nat
  newVolId : String → String
  volAvailOk : String → Bool
  stopStatus : String → Nat
  startStatus : String → Nat
  detachStatus : String → Nat
  attachStatus : String → Nat
  stopWaitOk : String → Bool
  startWaitOk : String → Bool
  inUseWaitOk : String → Bool

/-- The block-device fields the orchestrator reads: device node, source
volume, selected snapshot list (head is the selected snapshot), and the
result field it writes. -/
structure BlockDevice where
  DeviceName : String
  VolumeId : String
  SnapshotData : List String
  NewVolumeId : Option String := none

/-- The instance-record fields the orchestrator reads. -/
structure InstanceRecord where
  SwitchVols : Bool
  BlockDevs : List BlockDevice

/-- `restore_ebs_volume` (lines 523–591): create a volume from the
device's selected snapshot, `validate_response`, then wait for it to
become `available`.  A non-200 response exits the process; a `WaiterError`
(poll budget exhausted) is caught, printed, and the function returns
`None`; an empty snapshot list would raise `IndexError` before any call. -/
def restore_ebs_volume (gw : Gateway) (bd : BlockDevice) :
    List GCall × Option (Option String) :=
  match bd.SnapshotData with
  | [] => ([], none)
  | sid :: _ =>
      if gw.createStatus bd.DeviceName ≠ 200 then
        ([.createVolume bd.DeviceName sid], none)
      else
        let nv := gw.newVolId bd.DeviceName
        if gw.volAvailOk nv then
          ([.createVolume bd.DeviceName sid, .waitVolumeAvailable nv], some (some nv))
        else
          ([.createVolume bd.DeviceName sid, .waitVolumeAvailable nv], some none)

/-- `toggle_ec2_state` (lines 593–655): `state = 0` stops, otherwise
starts; `validate_response` exits on non-200; waiter errors are caught
and printed only. -/
def toggle_ec2_state (gw : Gateway) (iid : String) (state : Nat) :
    List GCall × Option Unit :=
  if state = 1 then
    if gw.startStatus iid ≠ 200 then ([.startInstance iid], none)
    else if gw.startWaitOk iid then
      ([.startInstance iid, .waitInstanceRunning iid], some ())
    else -- `WaiterError` caught and printed (lines 617–626); control falls through
      ([.startInstance iid, .waitInstanceRunning iid], some ())
  else
    if gw.stopStatus iid ≠ 200 then ([.stopInstance iid], none)
    else if gw.stopWaitOk iid then
      ([.stopInstance iid, .waitInstanceStopped iid], some ())
    else -- `WaiterError` caught and printed (lines 646–655); control falls through
      ([.stopInstance iid, .waitInstanceStopped iid], some ())

/-- `detach_ebs_volume` (lines 658–695). -/
def detach_ebs_volume (gw : Gateway) (iid vid dev : String) :
    List GCall × Option Unit :=
  if gw.detachStatus vid ≠ 200 then ([.detachVolume iid vid dev], none)
  else if gw.volAvailOk vid then
    ([.detachVolume iid vid dev, .waitVolumeAvailable vid], some ())
  else -- `WaiterError` caught and printed (lines 686–695); control falls through
    ([.detachVolume iid vid dev, .waitVolumeAvailable vid], some ())

/-- `attach_ebs_volume` (lines 698–737).  When the recorded
`NewVolumeId` is `None` (a create-step poll budget ran out earlier),
`attach_volume(VolumeId=None)` raises a client-side
`ParamValidationError` before any API call. -/
def attach_ebs_volume (gw : Gateway) (iid : String) (nvid : Option String)
    (dev : String) : List GCall × Option Unit :=
  match nvid with
  | none => ([], none)
  | some v =>
      if gw.attachStatus v ≠ 200 then ([.attachVolume iid v dev], none)
      else if gw.inUseWaitOk v then
        ([.attachVolume iid v dev, .waitVolumeInUse v], some ())
      else -- `WaiterError` caught and printed (lines 726–735); control falls through
        ([.attachVolume iid v dev, .waitVolumeInUse v], some ())

/-- `block_device.update({"NewVolumeId": new_volume_id})` (line 753). -/
def reviseBd (bd : BlockDevice) (nv : Option String) : BlockDevice :=
  ⟨bd.DeviceName, bd.VolumeId, bd.SnapshotData, nv⟩

/-- The first loop of `manage_restore_process` (lines 749–753): restore
every device, recording `NewVolumeId`. -/
def createPhase (gw : Gateway) : List BlockDevice → List GCall × Option (List BlockDevice)
  | [] => ([], some [])
  | bd :: rest =>
      match restore_ebs_volume gw bd with
      | (t, none) => (t, none)
      | (t, some nv) =>
          match createPhase gw rest with
          | (t2, none) => (t ++ t2, none)
          | (t2, some rest2) => (t ++ t2, some ((reviseBd bd nv) :: rest2))

/-- The detach-then-attach body for one device (lines 757–762). -/
def devSwitch (gw : Gateway) (iid : String) (bd : BlockDevice) :
    List GCall × Option Unit :=
  match detach_ebs_volume gw iid bd.VolumeId bd.DeviceName with
  | (t1, none) => (t1, none)
  | (t1, some _) =>
      match attach_ebs_volume gw iid bd.NewVolumeId bd.DeviceName with
      | (t2, r2) => (t1 ++ t2, r2)

/-- The switch loop over the devices (lines 757–762). -/
def switchLoop (gw : Gateway) (iid : String) : List BlockDevice → List GCall × Option Unit
  | [] => ([], some ())
  | bd :: rest =>
      match devSwitch gw iid bd with
      | (t, none) => (t, none)
      | (t, some _) =>
          match switchLoop gw iid rest with
          | (t2, r2) => (t ++ t2, r2)

/-- `manage_restore_process` for one instance (the body of the loop over
`instance_dict`, lines 746–763). -/
def manage_restore_one (gw : Gateway) (iid : String) (rec : InstanceRecord) :
    List GCall × Option Unit :=
  match createPhase gw rec.BlockDevs with
  | (t1, none) => (t1, none)
  | (t1, some devs2) =>
      if rec.SwitchVols then
        match toggle_ec2_state gw iid 0 with
        | (t2, none) => (t1 ++ t2, none)
        | (t2, some _) =>
            match switchLoop gw iid devs2 with
            | (t3, none) => (t1 ++ t2 ++ t3, none)
            | (t3, some _) =>
                match toggle_ec2_state gw iid 1 with
                | (t4, r4) => (t1 ++ t2 ++ t3 ++ t4, r4)
      else (t1, some ())

/-- `manage_restore_process` over the instance dict (entries in order). -/
def manage_restore_process (gw : Gateway) :
    List (String × InstanceRecord) → List GCall × Option Unit
  | [] => ([], some ())
  | (iid, rec) :: rest =>
      match manage_restore_one gw iid rec with
      | (t, none) => (t, none)
      | (t, some _) =>
          match manage_restore_process gw rest with
          | (t2, r2) => (t ++ t2, r2)

/-- A gateway where every response is 200 but the post-create poll for
device `d0`'s new volume never sees `available` (poll budget exhausted). -/
def c1gw : Gateway :=
  ⟨fun _ => 200, fun d => "nv-" ++ d, fun v => v != "nv-d0",
    fun _ => 200, fun _ => 200, fun _ => 200, fun _ => 200,
    fun _ => true, fun _ => true, fun _ => true⟩

/-- Two finalized devices on one instance, create-only run. -/
def c1rec : InstanceRecord :=
  ⟨false, [⟨"d0", "vol-0", ["snap-0"], none⟩, ⟨"d1", "vol-1", ["snap-1"], none⟩]⟩

/-- Calls the create phase can make: creations and availability polls. -/
def isCreateish : GCall → Prop
  | .createVolume _ _ => True
  | .waitVolumeAvailable _ => True
  | _ => False

theorem restore_calls (gw : Gateway) (bd : BlockDevice) :
    ∀ c ∈ (restore_ebs_volume gw bd).1, isCreateish c := by
  intro c hc
  rw [restore_ebs_volume] at hc
  match hsnap : bd.SnapshotData with
  | [] => rw [hsnap] at hc; simp at hc
  | sid :: tl =>
      rw [hsnap] at hc
      simp only [] at hc
      by_cases h200 : gw.createStatus bd.DeviceName ≠ 200
      · rw [if_pos h200] at hc
        simp only [List.mem_singleton] at hc
        subst hc; trivial
      · rw [if_neg h200] at hc
        cases hv : gw.volAvailOk (gw.newVolId bd.DeviceName) <;> rw [hv] at hc <;>
          simp only [Bool.false_eq_true, if_false, if_true, List.mem_cons,
            List.mem_singleton, List.not_mem_nil, or_false] at hc <;>
          rcases hc with h | h <;> subst h <;> trivial

theorem createPhase_calls (gw : Gateway) : ∀ (ds : List BlockDevice),
    ∀ c ∈ (createPhase gw ds).1, isCreateish c := by
  intro ds
  induction ds with
  | nil => intro c hc; simp [createPhase] at hc
  | cons bd rest ih =>
      intro c hc
      rw [createPhase] at hc
      rcases hr : restore_ebs_volume gw bd with ⟨t, r⟩
      rw [hr] at hc
      have ht : ∀ c ∈ t, isCreateish c := by
        intro x hx
        exact restore_calls gw bd x (by rw [hr]; exact hx)
      match r with
      | none => exact ht c hc
      | some nv =>
          rcases hr2 : createPhase gw rest with ⟨t2, r2⟩
          rw [hr2] at hc
          have ht2 : ∀ c ∈ t2, isCreateish c := by
            intro x hx
            exact ih x (by rw [hr2]; exact hx)
          match r2 with
          | none =>
              simp only [List.mem_append] at hc
              rcases hc with h | h
              · exact ht c h
              · exact ht2 c h
          | some rest2 =>
              simp only [List.mem_append] at hc
              rcases hc with h | h
              · exact ht c h
              · exact ht2 c h

/-- ASCII lowercasing of one character (`str.lower()` on the prompt
answers, which are ASCII). -/
def lowerChar (c : Char) : Char :=
  if 65 ≤ c.toNat ∧ c.toNat ≤ 90 then Char.ofNat (c.toNat + 32) else c

/-- `answer_raw.lower()`. -/
def pyLower (s : String) : String :=
  String.mk (s.data.map lowerChar)

/-- The yes/no loop of `get_user_confirmation`: first answer whose
lowercase form is `yes`/`no` decides; anything else re-prompts.  `none`
models exhausted input. -/
def get_user_confirmation : List String → Option Bool
  | [] => none
  | a :: rest =>
      if pyLower a = "yes" then some true
      else if pyLower a = "no" then some false
      else get_user_confirmation rest

/-- How the confirmation-gated part of `main` ends. -/
inductive RunExit where
  | completed
  | cancelled
  | exitedError

/-- `main` after the plan is finalized (lines 1199–1206): on `yes` run
`manage_restore_process`; on `no` close the client and print the
warning-level cancellation notice (no error exit).  Exhausted input
would raise `EOFError`. -/
def confirm_and_run (gw : Gateway) (inputs : List String)
    (insts : List (String × InstanceRecord)) : List GCall × RunExit :=
  match get_user_confirmation inputs with
  | some true =>
      match manage_restore_process gw insts with
      | (t, some _) => (t, .completed)
      | (t, none) => (t, .exitedError)
  | some false => ([], .cancelled)
  | none => ([], .exitedError)

/-- C8: for every finalized plan and gateway, if the first decisive
answer at the final confirmation prompt lowercases to `no`, the run
makes zero Gateway calls (in particular no volume creation, stop,
detach, attach, or start) and terminates as a user cancellation, which
is distinct from a failure exit. -/
theorem c8_no_cancels_without_mutation (gw : Gateway)
    (insts : List (String × InstanceRecord)) (pre rest : List String) (a : String)
    (hpre : ∀ b ∈ pre, pyLower b ≠ "yes" ∧ pyLower b ≠ "no")
    (ha : pyLower a = "no") :
    confirm_and_run gw (pre ++ a :: rest) insts = ([], .cancelled) ∧
    RunExit.cancelled ≠ RunExit.exitedError := by
  refine ⟨?_, by intro h; cases h⟩
  have hconf : get_user_confirmation (pre ++ a :: rest) = some false := by
    induction pre with
    | nil =>
        simp only [List.nil_append, get_user_confirmation]
        rw [if_neg (by rw [ha]; decide), if_pos ha]
    | cons b t ih =>
        have hb := hpre b (by simp)
        simp only [List.cons_append, get_user_confirmation]
        rw [if_neg hb.1, if_neg hb.2]
        exact ih (fun x hx => hpre x (by simp [hx]))
  rw [confirm_and_run, hconf]

/-- Witness for C8: an invalid answer, then `"No"`. -/
theorem c8_witness :
    confirm_and_run c1gw (["maybe"] ++ "No" :: []) [("i-1", c1rec)] = ([], .cancelled) ∧
    RunExit.cancelled ≠ RunExit.exitedError :=
  c8_no_cancels_without_mutation c1gw [("i-1", c1rec)] ["maybe"] [] "No"
    (by
      intro b hb
      simp only [List.mem_singleton] at hb
      subst hb
      exact ⟨by decide, by decide⟩)
    (by decide)

/-! ## Call-ordering infrastructure for the switch run (C6) -/

/-- `P`-calls strictly precede `Q`-calls in the trace. -/
def Precedes (P Q : GCall → Prop) (t : List GCall) : Prop :=
  ∀ (i j : Nat) (hi : i < t.length) (hj : j < t.length), P t[i] → Q t[j] → i < j

theorem precedes_no_Q {P Q : GCall → Prop} {t : List GCall}
    (h : ∀ c ∈ t, ¬ Q c) : Precedes P Q t :=
  fun _ j _ hj _ hQ => absurd hQ (h _ (List.getElem_mem hj))

theorem precedes_no_P {P Q : GCall → Prop} {t : List GCall}
    (h : ∀ c ∈ t, ¬ P c) : Precedes P Q t :=
  fun i _ hi _ hP _ => absurd hP (h _ (List.getElem_mem hi))

theorem precedes_glue {P Q : GCall → Prop} (a b : List GCall)
    (hA : ∀ c ∈ a, ¬ Q c) (hb : Precedes P Q b) : Precedes P Q (a ++ b) := by
  intro i j hi hj hP hQ
  have hja : a.length ≤ j := by
    by_contra hlt
    push_neg at hlt
    rw [List.getElem_append_left hlt] at hQ
    exact hA _ (List.getElem_mem hlt) hQ
  by_cases hia : i < a.length
  · omega
  · push_neg at hia
    rw [List.getElem_append_right hia] at hP
    rw [List.getElem_append_right hja] at hQ
    have hlen : (a ++ b).length = a.length + b.length := by simp
    have := hb (i - a.length) (j - a.length) (by omega) (by omega) hP hQ
    omega

theorem precedes_append_left {P Q : GCall → Prop} (a b : List GCall)
    (ha : Precedes P Q a) (hB : ∀ c ∈ b, ¬ P c) : Precedes P Q (a ++ b) := by
  intro i j hi hj hP hQ
  have hia : i < a.length := by
    by_contra h
    push_neg at h
    rw [List.getElem_append_right h] at hP
    exact hB _ (List.getElem_mem (by simp at hi ⊢; omega)) hP
  by_cases hja : j < a.length
  · rw [List.getElem_append_left hia] at hP
    rw [List.getElem_append_left hja] at hQ
    exact ha i j hia hja hP hQ
  · omega

theorem precedes_split {P Q : GCall → Prop} (a b : List GCall)
    (hA : ∀ c ∈ a, ¬ Q c) (hB : ∀ c ∈ b, ¬ P c) : Precedes P Q (a ++ b) :=
  precedes_glue a b hA (precedes_no_P hB)

/-- The instance-stop call. -/
def isStop : GCall → Prop
  | .stopInstance _ => True
  | _ => False

/-- The instance-start call. -/
def isStart : GCall → Prop
  | .startInstance _ => True
  | _ => False

/-- A detach or attach call. -/
def isDorA : GCall → Prop
  | .detachVolume _ _ _ => True
  | .attachVolume _ _ _ => True
  | _ => False

/-- The attach call at the given device node. -/
def isAttachOf (dev : String) : GCall → Prop
  | .attachVolume _ _ d => d = dev
  | _ => False

/-- The detach call of the given source volume at the given device node,
or the poll that observes its completion. -/
def isDetachishOf (vid dev : String) : GCall → Prop
  | .detachVolume _ v d => v = vid ∧ d = dev
  | .waitVolumeAvailable v => v = vid
  | _ => False

/-- A detach or attach call at the given device node. -/
def touchesDev (dev : String) : GCall → Prop
  | .detachVolume _ _ d => d = dev
  | .attachVolume _ _ d => d = dev
  | _ => False

/-- The calls a device's detach/attach block can contain. -/
def BlockCall (iid : String) (bd : BlockDevice) (c : GCall) : Prop :=
  c = .detachVolume iid bd.VolumeId bd.DeviceName ∨
  c = .waitVolumeAvailable bd.VolumeId ∨
  (∃ v, c = .attachVolume iid v bd.DeviceName) ∨
  (∃ v, c = .waitVolumeInUse v)

theorem devSwitch_calls (gw : Gateway) (iid : String) (bd : BlockDevice) :
    ∀ c ∈ (devSwitch gw iid bd).1, BlockCall iid bd c := by
  intro c hc
  rw [devSwitch, detach_ebs_volume] at hc
  by_cases hd : gw.detachStatus bd.VolumeId ≠ 200
  · rw [if_pos hd] at hc
    simp only [List.mem_singleton] at hc
    exact Or.inl hc
  · rw [if_neg hd] at hc
    rw [ite_self] at hc
    simp only [] at hc
    rw [attach_ebs_volume.eq_def] at hc
    match hnv : bd.NewVolumeId with
    | none =>
        rw [hnv] at hc
        simp only [List.append_nil, List.mem_cons, List.mem_singleton,
          List.not_mem_nil, or_false] at hc
        rcases hc with h | h
        · exact Or.inl h
        · exact Or.inr (Or.inl h)
    | some v =>
        rw [hnv] at hc
        simp only [] at hc
        by_cases ha : gw.attachStatus v ≠ 200
        · rw [if_pos ha] at hc
          simp only [List.mem_append, List.mem_cons, List.mem_singleton,
            List.not_mem_nil, or_false] at hc
          rcases hc with (h | h) | h
          · exact Or.inl h
          · exact Or.inr (Or.inl h)
          · exact Or.inr (Or.inr (Or.inl ⟨v, h⟩))
        · rw [if_neg ha, ite_self] at hc
          simp only [List.mem_append, List.mem_cons, List.mem_singleton,
            List.not_mem_nil, or_false] at hc
          rcases hc with (h | h) | (h | h)
          · exact Or.inl h
          · exact Or.inr (Or.inl h)
          · exact Or.inr (Or.inr (Or.inl ⟨v, h⟩))
          · exact Or.inr (Or.inr (Or.inr ⟨v, h⟩))

theorem switchLoop_calls (gw : Gateway) (iid : String) : ∀ (ds : List BlockDevice),
    ∀ c ∈ (switchLoop gw iid ds).1, ∃ bd ∈ ds, BlockCall iid bd c := by
  intro ds
  induction ds with
  | nil => intro c hc; simp [switchLoop] at hc
  | cons bd rest ih =>
      intro c hc
      rw [switchLoop] at hc
      rcases hd : devSwitch gw iid bd with ⟨t, r⟩
      rw [hd] at hc
      have hbt : ∀ x ∈ t, BlockCall iid bd x := by
        intro x hx
        exact devSwitch_calls gw iid bd x (by rw [hd]; exact hx)
      match r with
      | none => exact ⟨bd, by simp, hbt c hc⟩
      | some _ =>
          rcases hl : switchLoop gw iid rest with ⟨t2, r2⟩
          rw [hl] at hc
          simp only [List.mem_append] at hc
          rcases hc with h | h
          · exact ⟨bd, by simp, hbt c h⟩
          · obtain ⟨bd2, hbd2, hcall⟩ := ih c (by rw [hl]; exact h)
            exact ⟨bd2, by simp [hbd2], hcall⟩

theorem blockCall_not_stop {iid : String} {bd : BlockDevice} {c : GCall}
    (h : BlockCall iid bd c) : ¬ isStop c := by
  rcases h with h | h | ⟨v, h⟩ | ⟨v, h⟩ <;> subst h <;> intro hf <;> exact hf

theorem blockCall_not_start {iid : String} {bd : BlockDevice} {c : GCall}
    (h : BlockCall iid bd c) : ¬ isStart c := by
  rcases h with h | h | ⟨v, h⟩ | ⟨v, h⟩ <;> subst h <;> intro hf <;> exact hf

theorem blockCall_touch {iid : String} {bd : BlockDevice} {c : GCall} {d : String}
    (h : BlockCall iid bd c) (ht : touchesDev d c) : bd.DeviceName = d := by
  rcases h with h | h | ⟨v, h⟩ | ⟨v, h⟩ <;> subst h <;>
    simp only [touchesDev] at ht <;> exact ht

theorem blockCall_attach_dev {iid : String} {bd : BlockDevice} {c : GCall} {d : String}
    (h : BlockCall iid bd c) (ht : isAttachOf d c) : bd.DeviceName = d := by
  rcases h with h | h | ⟨v, h⟩ | ⟨v, h⟩ <;> subst h <;>
    simp only [isAttachOf] at ht <;> exact ht

theorem blockCall_not_detachish {iid : String} {bd : BlockDevice} {c : GCall}
    {vid dev : String} (h : BlockCall iid bd c) (hv : bd.VolumeId ≠ vid) :
    ¬ isDetachishOf vid dev c := by
  rcases h with h | h | ⟨v, h⟩ | ⟨v, h⟩ <;> subst h <;>
    simp only [isDetachishOf] <;> intro hf
  · exact hv hf.1
  · exact hv hf
  · exact hf
  · exact hf

theorem createish_not_DorA {c : GCall} (h : isCreateish c) : ¬ isDorA c := by
  match c with
  | .createVolume _ _ => intro hf; exact hf
  | .waitVolumeAvailable _ => intro hf; exact hf
  | .stopInstance _ => exact absurd h (by intro hf; exact hf)
  | .waitInstanceStopped _ => exact absurd h (by intro hf; exact hf)
  | .startInstance _ => exact absurd h (by intro hf; exact hf)
  | .waitInstanceRunning _ => exact absurd h (by intro hf; exact hf)
  | .detachVolume _ _ _ => exact absurd h (by intro hf; exact hf)
  | .attachVolume _ _ _ => exact absurd h (by intro hf; exact hf)
  | .waitVolumeInUse _ => exact absurd h (by intro hf; exact hf)

theorem createish_not_attach {c : GCall} {d : String} (h : isCreateish c) :
    ¬ isAttachOf d c := by
  match c with
  | .createVolume _ _ => intro hf; exact hf
  | .waitVolumeAvailable _ => intro hf; exact hf
  | .stopInstance _ => exact absurd h (by intro hf; exact hf)
  | .waitInstanceStopped _ => exact absurd h (by intro hf; exact hf)
  | .startInstance _ => exact absurd h (by intro hf; exact hf)
  | .waitInstanceRunning _ => exact absurd h (by intro hf; exact hf)
  | .detachVolume _ _ _ => exact absurd h (by intro hf; exact hf)
  | .attachVolume _ _ _ => exact absurd h (by intro hf; exact hf)
  | .waitVolumeInUse _ => exact absurd h (by intro hf; exact hf)

theorem createish_not_touch {c : GCall} {d : String} (h : isCreateish c) :
    ¬ touchesDev d c := by
  match c with
  | .createVolume _ _ => intro hf; exact hf
  | .waitVolumeAvailable _ => intro hf; exact hf
  | .stopInstance _ => exact absurd h (by intro hf; exact hf)
  | .waitInstanceStopped _ => exact absurd h (by intro hf; exact hf)
  | .startInstance _ => exact absurd h (by intro hf; exact hf)
  | .waitInstanceRunning _ => exact absurd h (by intro hf; exact hf)
  | .detachVolume _ _ _ => exact absurd h (by intro hf; exact hf)
  | .attachVolume _ _ _ => exact absurd h (by intro hf; exact hf)
  | .waitVolumeInUse _ => exact absurd h (by intro hf; exact hf)

theorem createish_not_start {c : GCall} (h : isCreateish c) : ¬ isStart c := by
  match c with
  | .createVolume _ _ => intro hf; exact hf
  | .waitVolumeAvailable _ => intro hf; exact hf
  | .stopInstance _ => exact absurd h (by intro hf; exact hf)
  | .waitInstanceStopped _ => exact absurd h (by intro hf; exact hf)
  | .startInstance _ => exact absurd h (by intro hf; exact hf)
  | .waitInstanceRunning _ => exact absurd h (by intro hf; exact hf)
  | .detachVolume _ _ _ => exact absurd h (by intro hf; exact hf)
  | .attachVolume _ _ _ => exact absurd h (by intro hf; exact hf)
  | .waitVolumeInUse _ => exact absurd h (by intro hf; exact hf)

/-- Within one device's block, the detach call and its completion poll
precede the attach call. -/
theorem devSwitch_det_before_att (gw : Gateway) (iid : String) (bd : BlockDevice) :
    Precedes (isDetachishOf bd.VolumeId bd.DeviceName) (isAttachOf bd.DeviceName)
      (devSwitch gw iid bd).1 := by
  rw [devSwitch, detach_ebs_volume]
  by_cases hd : gw.detachStatus bd.VolumeId ≠ 200
  · rw [if_pos hd]
    apply precedes_no_Q
    intro c hc
    simp only [List.mem_singleton] at hc
    subst hc
    intro hf
    exact hf
  · rw [if_neg hd, ite_self]
    simp only []
    rw [attach_ebs_volume.eq_def]
    match hnv : bd.NewVolumeId with
    | none =>
        apply precedes_no_Q
        intro c hc
        simp only [List.append_nil, List.mem_cons, List.mem_singleton,
          List.not_mem_nil, or_false] at hc
        rcases hc with h | h <;> subst h <;> intro hf <;> exact hf
    | some v =>
        simp only []
        by_cases ha : gw.attachStatus v ≠ 200
        · rw [if_pos ha]
          apply precedes_split
          · intro c hc
            simp only [List.mem_cons, List.mem_singleton, List.not_mem_nil,
              or_false] at hc
            rcases hc with h | h <;> subst h <;> intro hf <;> exact hf
          · intro c hc
            simp only [List.mem_singleton] at hc
            subst hc
            intro hf
            exact hf
        · rw [if_neg ha, ite_self]
          apply precedes_split
          · intro c hc
            simp only [List.mem_cons, List.mem_singleton, List.not_mem_nil,
              or_false] at hc
            rcases hc with h | h <;> subst h <;> intro hf <;> exact hf
          · intro c hc
            simp only [List.mem_cons, List.mem_singleton, List.not_mem_nil,
              or_false] at hc
            rcases hc with h | h <;> subst h <;> intro hf <;> exact hf

/-- In the whole switch loop, each listed device's detach (and its
completion poll) precedes its attach, provided volume ids and device
names are pairwise distinct across the devices. -/
theorem switchLoop_det_before_att (gw : Gateway) (iid : String) :
    ∀ (ds : List BlockDevice),
      (ds.map BlockDevice.VolumeId).Nodup →
      (ds.map BlockDevice.DeviceName).Nodup →
      ∀ bd ∈ ds,
        Precedes (isDetachishOf bd.VolumeId bd.DeviceName) (isAttachOf bd.DeviceName)
          (switchLoop gw iid ds).1 := by
  intro ds
  induction ds with
  | nil => intro _ _ bd hbd; exact absurd hbd (List.not_mem_nil bd)
  | cons bd0 rest ih =>
      intro hvols hnames bd hbd
      rw [List.map_cons, List.nodup_cons] at hvols hnames
      rw [switchLoop]
      rcases hd : devSwitch gw iid bd0 with ⟨t, r⟩
      have hbt : ∀ x ∈ t, BlockCall iid bd0 x := by
        intro x hx
        exact devSwitch_calls gw iid bd0 x (by rw [hd]; exact hx)
      rcases List.mem_cons.mp hbd with hbd | hbd
      · subst hbd
        have hdt : Precedes (isDetachishOf bd.VolumeId bd.DeviceName)
            (isAttachOf bd.DeviceName) t := by
          have := devSwitch_det_before_att gw iid bd
          rwa [hd] at this
        match r with
        | none => exact hdt
        | some _ =>
            simp only []
            rcases hsl : switchLoop gw iid rest with ⟨t2, r2⟩
            simp only []
            apply precedes_append_left t t2 hdt
            intro c hc
            obtain ⟨bd2, hbd2, hcall⟩ := switchLoop_calls gw iid rest c
              (by rw [hsl]; exact hc)
            apply blockCall_not_detachish hcall
            intro hvv
            exact hvols.1 (hvv ▸ List.mem_map_of_mem BlockDevice.VolumeId hbd2)
      · have hnotQ : ∀ c ∈ t, ¬ isAttachOf bd.DeviceName c := by
          intro c hc hQ
          have hdev := blockCall_attach_dev (hbt c hc) hQ
          exact hnames.1 (hdev ▸ List.mem_map_of_mem BlockDevice.DeviceName hbd)
        match r with
        | none => exact precedes_no_Q hnotQ
        | some _ =>
            simp only []
            rcases hsl : switchLoop gw iid rest with ⟨t2, r2⟩
            simp only []
            have hrest := ih hvols.2 hnames.2 bd hbd
            rw [hsl] at hrest
            exact precedes_glue t t2 hnotQ hrest

/-- In the whole switch loop, all detach/attach calls at an earlier listed
device precede all detach/attach calls at a later listed device, provided
device names are pairwise distinct. -/
theorem switchLoop_dev_order (gw : Gateway) (iid : String) :
    ∀ (ds : List BlockDevice),
      (ds.map BlockDevice.DeviceName).Nodup →
      ∀ (p q : Nat) (hp : p < ds.length) (hq : q < ds.length), p < q →
        Precedes (touchesDev (ds[p].DeviceName)) (touchesDev (ds[q].DeviceName))
          (switchLoop gw iid ds).1 := by
  intro ds
  induction ds with
  | nil => intro _ p q hp _ _; exact absurd hp (by simp)
  | cons bd0 rest ih =>
      intro hnames p q hp hq hpq
      rw [List.map_cons, List.nodup_cons] at hnames
      rw [switchLoop]
      rcases hd : devSwitch gw iid bd0 with ⟨t, r⟩
      have hbt : ∀ x ∈ t, BlockCall iid bd0 x := by
        intro x hx
        exact devSwitch_calls gw iid bd0 x (by rw [hd]; exact hx)
      match q, hq with
      | q' + 1, hq =>
        have hq' : q' < rest.length := by simpa using hq
        have hqdev : (bd0 :: rest)[q' + 1].DeviceName = rest[q'].DeviceName := by
          simp
        have hqmem : rest[q'].DeviceName ∈ rest.map BlockDevice.DeviceName :=
          List.mem_map_of_mem BlockDevice.DeviceName (List.getElem_mem hq')
        have hnotQ : ∀ c ∈ t, ¬ touchesDev ((bd0 :: rest)[q' + 1].DeviceName) c := by
          intro c hc hQ
          have hdev := blockCall_touch (hbt c hc) hQ
          rw [hqdev] at hdev
          exact hnames.1 (hdev ▸ hqmem)
        match p, hp with
        | 0, _ =>
            match r with
            | none => exact precedes_no_Q hnotQ
            | some _ =>
                simp only []
                rcases hsl : switchLoop gw iid rest with ⟨t2, r2⟩
                simp only []
                apply precedes_split t t2 hnotQ
                intro c hc hP
                obtain ⟨bd2, hbd2, hcall⟩ := switchLoop_calls gw iid rest c
                  (by rw [hsl]; exact hc)
                have hdev := blockCall_touch hcall hP
                simp only [List.getElem_cons_zero] at hdev
                exact hnames.1 (hdev ▸ List.mem_map_of_mem BlockDevice.DeviceName hbd2)
        | p' + 1, hp =>
            have hp' : p' < rest.length := by simpa using hp
            match r with
            | none => exact precedes_no_Q hnotQ
            | some _ =>
                simp only []
                rcases hsl : switchLoop gw iid rest with ⟨t2, r2⟩
                simp only []
                have hrest := ih hnames.2 p' q' hp' hq' (by omega)
                rw [hsl] at hrest
                have hpe : (bd0 :: rest)[p' + 1].DeviceName = rest[p'].DeviceName := by
                  simp
                rw [hpe, hqdev]
                exact precedes_glue t t2 (by rw [← hqdev]; exact hnotQ) hrest

/-- The create phase only revises `NewVolumeId`: the device-name/volume-id
pairs of the surviving records match the input list positionally. -/
theorem createPhase_pairs (gw : Gateway) : ∀ (ds ds2 : List BlockDevice) (t : List GCall),
    createPhase gw ds = (t, some ds2) →
    ds2.map (fun b => (b.DeviceName, b.VolumeId)) =
      ds.map (fun b => (b.DeviceName, b.VolumeId)) := by
  intro ds
  induction ds with
  | nil =>
      intro ds2 t h
      rw [createPhase] at h
      obtain ⟨-, h2⟩ := Prod.mk.injEq .. ▸ h
      cases h2
      rfl
  | cons bd rest ih =>
      intro ds2 t h
      rw [createPhase] at h
      rcases hr : restore_ebs_volume gw bd with ⟨t1, r1⟩
      rw [hr] at h
      rcases r1 with _ | nv
      · simp only [] at h
        exact absurd (congrArg Prod.snd h).symm (by simp)
      · simp only [] at h
        rcases hc : createPhase gw rest with ⟨t2, r2⟩
        rw [hc] at h
        rcases r2 with _ | rest2
        · simp only [] at h
          exact absurd (congrArg Prod.snd h).symm (by simp)
        · simp only [] at h
          have h2 := congrArg Prod.snd h
          simp only [Option.some.injEq] at h2
          subst h2
          simp only [List.map_cons, reviseBd]
          exact congrArg (List.cons _) (ih rest2 t2 hc)

theorem toggle0_calls (gw : Gateway) (iid : String) :
    ∀ c ∈ (toggle_ec2_state gw iid 0).1,
      c = .stopInstance iid ∨ c = .waitInstanceStopped iid := by
  intro c hc
  rw [toggle_ec2_state] at hc
  rw [if_neg (by omega)] at hc
  by_cases h : gw.stopStatus iid ≠ 200
  · rw [if_pos h] at hc
    simp only [List.mem_singleton] at hc
    exact Or.inl hc
  · rw [if_neg h, ite_self] at hc
    simp only [List.mem_cons, List.mem_singleton, List.not_mem_nil, or_false] at hc
    exact hc

theorem toggle1_calls (gw : Gateway) (iid : String) :
    ∀ c ∈ (toggle_ec2_state gw iid 1).1,
      c = .startInstance iid ∨ c = .waitInstanceRunning iid := by
  intro c hc
  rw [toggle_ec2_state] at hc
  rw [if_pos rfl] at hc
  by_cases h : gw.startStatus iid ≠ 200
  · rw [if_pos h] at hc
    simp only [List.mem_singleton] at hc
    exact Or.inl hc
  · rw [if_neg h, ite_self] at hc
    simp only [List.mem_cons, List.mem_singleton, List.not_mem_nil, or_false] at hc
    exact hc

/-- For a one-instance restore process the call trace is the trace of the
per-instance body. -/
theorem manage_process_single (gw : Gateway) (iid : String) (rec : InstanceRecord) :
    (manage_restore_process gw [(iid, rec)]).1 = (manage_restore_one gw iid rec).1 := by
  rw [manage_restore_process]
  rcases h : manage_restore_one gw iid rec with ⟨t, r⟩
  rcases r with _ | u
  · rfl
  · simp [manage_restore_process]

theorem map_get_of_map_eq {α β : Type} (f : α → β) :
    ∀ (l1 l2 : List α), l1.map f = l2.map f →
      ∀ (i : Nat) (h1 : i < l1.length) (h2 : i < l2.length),
        f (l1.get ⟨i, h1⟩) = f (l2.get ⟨i, h2⟩) := by
  intro l1
  induction l1 with
  | nil => intro l2 h i h1 h2; exact absurd h1 (by simp)
  | cons a l1 ih =>
      intro l2 h i h1 h2
      cases l2 with
      | nil => exact absurd h2 (by simp)
      | cons b l2 =>
          simp only [List.map_cons, List.cons.injEq] at h
          cases i with
          | zero => simpa using h.1
          | succ i =>
              rw [List.get_cons_succ, List.get_cons_succ]
              exact ih l2 h.2 i (by simpa using h1) (by simpa using h2)

/-- The four orderings over the per-instance restore body. -/
theorem manage_one_ordering (gw : Gateway) (iid : String) (rec : InstanceRecord)
    (hsw : rec.SwitchVols = true)
    (hnv : (rec.BlockDevs.map BlockDevice.VolumeId).Nodup)
    (hnd : (rec.BlockDevs.map BlockDevice.DeviceName).Nodup) :
    Precedes isStop isDorA (manage_restore_one gw iid rec).1 ∧
    (∀ bd ∈ rec.BlockDevs,
      Precedes (isDetachishOf bd.VolumeId bd.DeviceName) (isAttachOf bd.DeviceName)
        (manage_restore_one gw iid rec).1) ∧
    (∀ (p q : Nat) (hp : p < rec.BlockDevs.length) (hq : q < rec.BlockDevs.length),
      p < q →
      Precedes (touchesDev (rec.BlockDevs.get ⟨p, hp⟩).DeviceName)
        (touchesDev (rec.BlockDevs.get ⟨q, hq⟩).DeviceName)
        (manage_restore_one gw iid rec).1) ∧
    Precedes isDorA isStart (manage_restore_one gw iid rec).1 := by
  simp only [manage_restore_one]
  rcases hcp : createPhase gw rec.BlockDevs with ⟨t1, r1⟩
  have ht1 : ∀ c ∈ t1, isCreateish c := by
    intro c hc
    exact createPhase_calls gw rec.BlockDevs c (by rw [hcp]; exact hc)
  rcases r1 with _ | devs2
  · simp only []
    exact ⟨precedes_no_Q (fun c hc => createish_not_DorA (ht1 c hc)),
           fun bd _ => precedes_no_Q (fun c hc => createish_not_attach (ht1 c hc)),
           fun p q hp hq _ => precedes_no_Q (fun c hc => createish_not_touch (ht1 c hc)),
           precedes_no_Q (fun c hc => createish_not_start (ht1 c hc))⟩
  · simp only []
    rw [if_pos hsw]
    rcases ht2 : toggle_ec2_state gw iid 0 with ⟨t2, r2⟩
    have h2c : ∀ c ∈ t2, c = GCall.stopInstance iid ∨ c = GCall.waitInstanceStopped iid := by
      intro c hc
      exact toggle0_calls gw iid c (by rw [ht2]; exact hc)
    have h2DorA : ∀ c ∈ t2, ¬ isDorA c := by
      intro c hc hf; rcases h2c c hc with h | h <;> subst h <;> exact hf
    have h2att : ∀ (d : String), ∀ c ∈ t2, ¬ isAttachOf d c := by
      intro d c hc hf; rcases h2c c hc with h | h <;> subst h <;> exact hf
    have h2touch : ∀ (d : String), ∀ c ∈ t2, ¬ touchesDev d c := by
      intro d c hc hf; rcases h2c c hc with h | h <;> subst h <;> exact hf
    have h2start : ∀ c ∈ t2, ¬ isStart c := by
      intro c hc hf; rcases h2c c hc with h | h <;> subst h <;> exact hf
    rcases r2 with _ | u2
    · simp only []
      refine ⟨precedes_no_Q ?_, fun bd _ => precedes_no_Q ?_,
        fun p q hp hq _ => precedes_no_Q ?_, precedes_no_Q ?_⟩
      · intro c hc
        rcases List.mem_append.mp hc with h | h
        · exact createish_not_DorA (ht1 c h)
        · exact h2DorA c h
      · intro c hc
        rcases List.mem_append.mp hc with h | h
        · exact createish_not_attach (ht1 c h)
        · exact h2att _ c h
      · intro c hc
        rcases List.mem_append.mp hc with h | h
        · exact createish_not_touch (ht1 c h)
        · exact h2touch _ c h
      · intro c hc
        rcases List.mem_append.mp hc with h | h
        · exact createish_not_start (ht1 c h)
        · exact h2start c h
    · simp only []
      rcases ht3 : switchLoop gw iid devs2 with ⟨t3, r3⟩
      have h3c : ∀ c ∈ t3, ∃ bd ∈ devs2, BlockCall iid bd c := by
        intro c hc
        exact switchLoop_calls gw iid devs2 c (by rw [ht3]; exact hc)
      have h3stop : ∀ c ∈ t3, ¬ isStop c := by
        intro c hc
        obtain ⟨bd2, -, hcall⟩ := h3c c hc
        exact blockCall_not_stop hcall
      have h3start : ∀ c ∈ t3, ¬ isStart c := by
        intro c hc
        obtain ⟨bd2, -, hcall⟩ := h3c c hc
        exact blockCall_not_start hcall
      have hpairs := createPhase_pairs gw rec.BlockDevs devs2 t1 hcp
      have hdn : devs2.map BlockDevice.DeviceName = rec.BlockDevs.map BlockDevice.DeviceName := by
        have h := congrArg (List.map Prod.fst) hpairs
        simpa [List.map_map, Function.comp] using h
      have hvn : devs2.map BlockDevice.VolumeId = rec.BlockDevs.map BlockDevice.VolumeId := by
        have h := congrArg (List.map Prod.snd) hpairs
        simpa [List.map_map, Function.comp] using h
      have hlen : devs2.length = rec.BlockDevs.length := by
        have h := congrArg List.length hdn
        simpa using h
      have hnv2 : (devs2.map BlockDevice.VolumeId).Nodup := by rw [hvn]; exact hnv
      have hnd2 : (devs2.map BlockDevice.DeviceName).Nodup := by rw [hdn]; exact hnd
      have hImp2 : ∀ bd ∈ rec.BlockDevs,
          Precedes (isDetachishOf bd.VolumeId bd.DeviceName) (isAttachOf bd.DeviceName) t3 := by
        intro bd hbd
        obtain ⟨i, hi, hbdi⟩ := List.getElem_of_mem hbd
        have hi2 : i < devs2.length := by omega
        have hpair := map_get_of_map_eq (fun b => (b.DeviceName, b.VolumeId)) devs2
          rec.BlockDevs hpairs i hi2 hi
        simp only [List.get_eq_getElem, hbdi, Prod.mk.injEq] at hpair
        have hsl := switchLoop_det_before_att gw iid devs2 hnv2 hnd2
          (devs2.get ⟨i, hi2⟩) (List.get_mem devs2 i hi2)
        rw [ht3] at hsl
        rw [List.get_eq_getElem] at hsl
        rw [hpair.1, hpair.2] at hsl
        exact hsl
      have hImp3 : ∀ (p q : Nat) (hp : p < rec.BlockDevs.length)
          (hq : q < rec.BlockDevs.length), p < q →
          Precedes (touchesDev (rec.BlockDevs.get ⟨p, hp⟩).DeviceName)
            (touchesDev (rec.BlockDevs.get ⟨q, hq⟩).DeviceName) t3 := by
        intro p q hp hq hpq
        have hp2 : p < devs2.length := by omega
        have hq2 : q < devs2.length := by omega
        have hdp := map_get_of_map_eq BlockDevice.DeviceName devs2 rec.BlockDevs hdn p hp2 hp
        have hdq := map_get_of_map_eq BlockDevice.DeviceName devs2 rec.BlockDevs hdn q hq2 hq
        simp only [List.get_eq_getElem] at hdp hdq
        have hsl := switchLoop_dev_order gw iid devs2 hnd2 p q hp2 hq2 hpq
        rw [ht3] at hsl
        rw [hdp, hdq] at hsl
        simp only [List.get_eq_getElem]
        exact hsl
      rcases r3 with _ | u3
      · simp only []
        refine ⟨?_, ?_, ?_, ?_⟩
        · apply precedes_split
          · intro c hc
            rcases List.mem_append.mp hc with h | h
            · exact createish_not_DorA (ht1 c h)
            · exact h2DorA c h
          · exact h3stop
        · intro bd hbd
          apply precedes_glue
          · intro c hc
            rcases List.mem_append.mp hc with h | h
            · exact createish_not_attach (ht1 c h)
            · exact h2att _ c h
          · exact hImp2 bd hbd
        · intro p q hp hq hpq
          apply precedes_glue
          · intro c hc
            rcases List.mem_append.mp hc with h | h
            · exact createish_not_touch (ht1 c h)
            · exact h2touch _ c h
          · exact hImp3 p q hp hq hpq
        · apply precedes_no_Q
          intro c hc
          rcases List.mem_append.mp hc with h | h
          · rcases List.mem_append.mp h with h1 | h2
            · exact createish_not_start (ht1 c h1)
            · exact h2start c h2
          · exact h3start c h
      · simp only []
        rcases ht4 : toggle_ec2_state gw iid 1 with ⟨t4, r4⟩
        simp only []
        have h4c : ∀ c ∈ t4, c = GCall.startInstance iid ∨ c = GCall.waitInstanceRunning iid := by
          intro c hc
          exact toggle1_calls gw iid c (by rw [ht4]; exact hc)
        have h4DorA : ∀ c ∈ t4, ¬ isDorA c := by
          intro c hc hf; rcases h4c c hc with h | h <;> subst h <;> exact hf
        have h4det : ∀ (v d : String), ∀ c ∈ t4, ¬ isDetachishOf v d c := by
          intro v d c hc hf; rcases h4c c hc with h | h <;> subst h <;> exact hf
        have h4touch : ∀ (d : String), ∀ c ∈ t4, ¬ touchesDev d c := by
          intro d c hc hf; rcases h4c c hc with h | h <;> subst h <;> exact hf
        have h4stop : ∀ c ∈ t4, ¬ isStop c := by
          intro c hc hf; rcases h4c c hc with h | h <;> subst h <;> exact hf
        refine ⟨?_, ?_, ?_, ?_⟩
        · rw [List.append_assoc (t1 ++ t2) t3 t4]
          apply precedes_split
          · intro c hc
            rcases List.mem_append.mp hc with h | h
            · exact createish_not_DorA (ht1 c h)
            · exact h2DorA c h
          · intro c hc
            rcases List.mem_append.mp hc with h | h
            · exact h3stop c h
            · exact h4stop c h
        · intro bd hbd
          rw [List.append_assoc (t1 ++ t2) t3 t4]
          apply precedes_glue
          · intro c hc
            rcases List.mem_append.mp hc with h | h
            · exact createish_not_attach (ht1 c h)
            · exact h2att _ c h
          · apply precedes_append_left
            · exact hImp2 bd hbd
            · intro c hc
              exact h4det _ _ c hc
        · intro p q hp hq hpq
          rw [List.append_assoc (t1 ++ t2) t3 t4]
          apply precedes_glue
          · intro c hc
            rcases List.mem_append.mp hc with h | h
            · exact createish_not_touch (ht1 c h)
            · exact h2touch _ c h
          · apply precedes_append_left
            · exact hImp3 p q hp hq hpq
            · intro c hc
              exact h4touch _ c hc
        · apply precedes_split
          · intro c hc
            rcases List.mem_append.mp hc with h | h
            · rcases List.mem_append.mp h with h1 | h2
              · exact createish_not_start (ht1 c h1)
              · exact h2start c h2
            · exact h3start c h
          · intro c hc
            exact h4DorA c hc

/-- C6: in a switch-enabled run (`SwitchVols = true`, with pairwise
distinct device names and volume ids), over the Gateway call trace: the
instance-stop call precedes every detach/attach call; each device's
detach call and completion poll precede its attach call; detach/attach
calls at devices listed earlier precede those at devices listed later;
and the instance-start call follows every detach/attach call. -/
theorem c6_switch_ordering (gw : Gateway) (iid : String) (rec : InstanceRecord)
    (hsw : rec.SwitchVols = true)
    (hnv : (rec.BlockDevs.map BlockDevice.VolumeId).Nodup)
    (hnd : (rec.BlockDevs.map BlockDevice.DeviceName).Nodup) :
    Precedes isStop isDorA (manage_restore_process gw [(iid, rec)]).1 ∧
    (∀ bd ∈ rec.BlockDevs,
      Precedes (isDetachishOf bd.VolumeId bd.DeviceName) (isAttachOf bd.DeviceName)
        (manage_restore_process gw [(iid, rec)]).1) ∧
    (∀ (p q : Nat) (hp : p < rec.BlockDevs.length) (hq : q < rec.BlockDevs.length),
      p < q →
      Precedes (touchesDev (rec.BlockDevs.get ⟨p, hp⟩).DeviceName)
        (touchesDev (rec.BlockDevs.get ⟨q, hq⟩).DeviceName)
        (manage_restore_process gw [(iid, rec)]).1) ∧
    Precedes isDorA isStart (manage_restore_process gw [(iid, rec)]).1 := by
  rw [manage_process_single]
  exact manage_one_ordering gw iid rec hsw hnv hnd

/-- An all-200 gateway for the C6 witness run. -/
def c6gw : Gateway :=
  ⟨fun _ => 200, fun d => "nv-" ++ d, fun _ => true,
    fun _ => 200, fun _ => 200, fun _ => 200, fun _ => 200,
    fun _ => true, fun _ => true, fun _ => true⟩

/-- A switch-enabled two-device instance record. -/
def c6rec : InstanceRecord :=
  ⟨true, [⟨"d0", "vol-0", ["snap-0"], none⟩, ⟨"d1", "vol-1", ["snap-1"], none⟩]⟩

theorem c6_witness :
    c6rec.SwitchVols = true ∧
    (c6rec.BlockDevs.map BlockDevice.VolumeId).Nodup ∧
    (c6rec.BlockDevs.map BlockDevice.DeviceName).Nodup ∧
    (Precedes isStop isDorA (manage_restore_process c6gw [("i-1", c6rec)]).1 ∧
     (∀ bd ∈ c6rec.BlockDevs,
       Precedes (isDetachishOf bd.VolumeId bd.DeviceName) (isAttachOf bd.DeviceName)
         (manage_restore_process c6gw [("i-1", c6rec)]).1) ∧
     (∀ (p q : Nat) (hp : p < c6rec.BlockDevs.length) (hq : q < c6rec.BlockDevs.length),
       p < q →
       Precedes (touchesDev (c6rec.BlockDevs.get ⟨p, hp⟩).DeviceName)
         (touchesDev (c6rec.BlockDevs.get ⟨q, hq⟩).DeviceName)
         (manage_restore_process c6gw [("i-1", c6rec)]).1) ∧
     Precedes isDorA isStart (manage_restore_process c6gw [("i-1", c6rec)]).1) :=
  ⟨rfl, by decide, by decide,
    c6_switch_ordering c6gw "i-1" c6rec rfl (by decide) (by decide)⟩

/-! ## Plan revalidation (`verify_instance` / `verify_volume` /
`verify_snapshot` / `revalidate_loaded_plan`, lines 893–1086).

The plan records and the live AWS resources are modelled with typed
records; `describe_*` on a missing resource raises a botocore
`ClientError`, which the code does not catch (only `UnauthorizedSSOTokenError`
and `ProfileNotFound` are handled), so it is a crash outcome, distinct
from the `sys.exit` messages.  Python attribute values compare typed. -/

inductive PVal
  | s (v : String)
  | b (v : Bool)
  | i (v : Int)
deriving DecidableEq

/-- Outcomes of revalidation: `clientError` is the uncaught botocore
`ClientError` raised by a `describe_*` call on a missing resource id;
`notFound` is the `sys.exit("... could not be found")` taken when the
response does not hold exactly one resource; `mismatch` is the
`sys.exit("Error: <field> does not match\nPlan: .., Actual: ..")`;
`indexError` is the uncaught `IndexError` from `[0]` on an empty list. -/
inductive DriftErr
  | clientError (rid : String)
  | notFound (rid : String)
  | mismatch (field : String) (plan live : PVal)
  | indexError (what : String)
deriving DecidableEq

structure SnapRec where
  SnapshotId : String
  StartTime : String

structure PlanBlockDev where
  DeviceName : String
  VolumeId : String
  AvailabilityZone : String
  Encrypted : Bool
  Size : Int
  VolumeType : String
  KmsKeyId : String
  SnapshotData : List SnapRec

structure PlanInstance where
  Name : String
  IPAddress : String
  BlockDevs : List PlanBlockDev

structure LiveInstance where
  Tags : List (String × String)
  PrivateIpAddress : String

structure LiveVolume where
  Attachments : List String
  AvailabilityZone : String
  Encrypted : Bool
  Size : Int
  VolumeType : String
  KmsKeyId : String

structure LiveSnapshot where
  StartTime : String

structure LiveState where
  instances : String → Option LiveInstance
  volumes : String → Option LiveVolume
  snapshots : String → Option LiveSnapshot

/-- `instance_name = ""` then `for tags in instance["Tags"]: if Key == "Name":
instance_name = Value` (lines 917–920): the last `Name` tag wins. -/
def tagScan : List (String × String) → String → String
  | [], acc => acc
  | (k, v) :: rest, acc => tagScan rest (if k = "Name" then v else acc)

/-- The two attribute checks of lines 916–939 for one instance. -/
def checkInstances (planName planIP : String) : List LiveInstance → Except DriftErr Unit
  | [] => .ok ()
  | inst :: rest =>
      if planName ≠ tagScan inst.Tags "" then
        .error (.mismatch "Instance name" (.s planName) (.s (tagScan inst.Tags "")))
      else if planIP ≠ inst.PrivateIpAddress then
        .error (.mismatch "Instance IP Address" (.s planIP) (.s inst.PrivateIpAddress))
      else
        checkInstances planName planIP rest

/-- `verify_instance` (lines 893–946), over the reservation list of the
response. -/
def verify_instance (iid planName planIP : String) :
    List (List LiveInstance) → Except DriftErr Unit
  | [] => .ok ()
  | r :: rest =>
      if r.length = 1 then
        match checkInstances planName planIP r with
        | .error e => .error e
        | .ok () => verify_instance iid planName planIP rest
      else
        .error (.notFound iid)

/-- `volume[key]` for the non-`DeviceName` metadata keys (line 983). -/
def liveVolVal (vol : LiveVolume) (k : String) : PVal :=
  if k = "AvailabilityZone" then .s vol.AvailabilityZone
  else if k = "Encrypted" then .b vol.Encrypted
  else if k = "Size" then .i vol.Size
  else if k = "VolumeType" then .s vol.VolumeType
  else .s vol.KmsKeyId

/-- The key loop of lines 969–990: `DeviceName` is compared against
`volume["Attachments"][0]["Device"]`, an `IndexError` when the volume has
no attachments; every other key against `volume[key]`. -/
def checkVolKeys (vid : String) (vol : LiveVolume) :
    List (String × PVal) → Except DriftErr Unit
  | [] => .ok ()
  | (k, pv) :: rest =>
      if k = "DeviceName" then
        match vol.Attachments with
        | [] => .error (.indexError vid)
        | d :: _ =>
            if pv ≠ PVal.s d then .error (.mismatch k pv (.s d))
            else checkVolKeys vid vol rest
      else
        if pv ≠ liveVolVal vol k then .error (.mismatch k pv (liveVolVal vol k))
        else checkVolKeys vid vol rest

def volLoop (vid : String) (meta : List (String × PVal)) :
    List LiveVolume → Except DriftErr Unit
  | [] => .ok ()
  | vol :: rest =>
      match checkVolKeys vid vol meta with
      | .error e => .error e
      | .ok () => volLoop vid meta rest

/-- `verify_volume` (lines 949–997). -/
def verify_volume (vid : String) (meta : List (String × PVal))
    (resp : List LiveVolume) : Except DriftErr Unit :=
  if resp.length = 1 then volLoop vid meta resp
  else .error (.notFound vid)

def snapLoop (planStart : String) : List LiveSnapshot → Except DriftErr Unit
  | [] => .ok ()
  | snap :: rest =>
      if planStart ≠ snap.StartTime then
        .error (.mismatch "StartTime" (.s planStart) (.s snap.StartTime))
      else snapLoop planStart rest

/-- `verify_snapshot` (lines 1000–1047); the metadata dict holds exactly
the `StartTime` key, compared against the rendered live start time. -/
def verify_snapshot (sid planStart : String) (resp : List LiveSnapshot) :
    Except DriftErr Unit :=
  if resp.length = 1 then snapLoop planStart resp
  else .error (.notFound sid)

/-- `describe_instances(InstanceIds=[iid])`: one reservation holding the
one instance when it exists, an uncaught `ClientError` when it does not. -/
def describe_instances (live : LiveState) (iid : String) :
    Except DriftErr (List (List LiveInstance)) :=
  match live.instances iid with
  | none => .error (.clientError iid)
  | some inst => .ok [[inst]]

def describe_volumes (live : LiveState) (vid : String) :
    Except DriftErr (List LiveVolume) :=
  match live.volumes vid with
  | none => .error (.clientError vid)
  | some vol => .ok [vol]

def describe_snapshots (live : LiveState) (sid : String) :
    Except DriftErr (List LiveSnapshot) :=
  match live.snapshots sid with
  | none => .error (.clientError sid)
  | some snap => .ok [snap]

/-- The `volume_metadata` dict of lines 1068–1077, in insertion order. -/
def volMeta (bd : PlanBlockDev) : List (String × PVal) :=
  [("DeviceName", .s bd.DeviceName),
   ("AvailabilityZone", .s bd.AvailabilityZone),
   ("Encrypted", .b bd.Encrypted),
   ("Size", .i bd.Size),
   ("VolumeType", .s bd.VolumeType)] ++
  (if bd.Encrypted then [("KmsKeyId", PVal.s bd.KmsKeyId)] else [])

/-- Describe-then-verify for one volume id. -/
def volCheck (live : LiveState) (bd : PlanBlockDev) : Except DriftErr Unit :=
  match describe_volumes live bd.VolumeId with
  | .error e => .error e
  | .ok resp => verify_volume bd.VolumeId (volMeta bd) resp

/-- One iteration of the block-device loop of lines 1066–1086:
volume check, then `block_dev["SnapshotData"][0]` (an `IndexError` on an
empty snapshot list), then the snapshot check. -/
def revalBlockDev (live : LiveState) (bd : PlanBlockDev) : Except DriftErr Unit :=
  match volCheck live bd with
  | .error e => .error e
  | .ok () =>
      match bd.SnapshotData with
      | [] => .error (.indexError "SnapshotData")
      | sr :: _ =>
          match describe_snapshots live sr.SnapshotId with
          | .error e => .error e
          | .ok resp => verify_snapshot sr.SnapshotId sr.StartTime resp

def revalBlockDevs (live : LiveState) : List PlanBlockDev → Except DriftErr Unit
  | [] => .ok ()
  | bd :: rest =>
      match revalBlockDev live bd with
      | .error e => .error e
      | .ok () => revalBlockDevs live rest

/-- Describe-then-verify for one instance id. -/
def instCheck (live : LiveState) (iid : String) (pinst : PlanInstance) :
    Except DriftErr Unit :=
  match describe_instances live iid with
  | .error e => .error e
  | .ok resp => verify_instance iid pinst.Name pinst.IPAddress resp

/-- `revalidate_loaded_plan` (lines 1050–1086). -/
def revalidate_loaded_plan (live : LiveState) :
    List (String × PlanInstance) → Except DriftErr Unit
  | [] => .ok ()
  | (iid, pinst) :: rest =>
      match instCheck live iid pinst with
      | .error e => .error e
      | .ok () =>
          match revalBlockDevs live pinst.BlockDevs with
          | .error e => .error e
          | .ok () => revalidate_loaded_plan live rest

/-- Spec-side: the instance exists and its tracked attributes match. -/
def InstOk (live : LiveState) (iid : String) (pinst : PlanInstance) : Prop :=
  ∃ inst, live.instances iid = some inst ∧
    pinst.Name = tagScan inst.Tags "" ∧
    pinst.IPAddress = inst.PrivateIpAddress

/-- Spec-side: the volume exists, is attached, and its tracked attributes
(including the KMS key when encrypted) match. -/
def VolOk (live : LiveState) (bd : PlanBlockDev) : Prop :=
  ∃ vol, live.volumes bd.VolumeId = some vol ∧
    (∃ d ds, vol.Attachments = d :: ds ∧ bd.DeviceName = d) ∧
    bd.AvailabilityZone = vol.AvailabilityZone ∧
    bd.Encrypted = vol.Encrypted ∧
    bd.Size = vol.Size ∧
    bd.VolumeType = vol.VolumeType ∧
    (bd.Encrypted = true → bd.KmsKeyId = vol.KmsKeyId)

/-- Spec-side: a first snapshot is recorded, exists, and its rendered
start time matches. -/
def SnapOk (live : LiveState) (bd : PlanBlockDev) : Prop :=
  ∃ sr rest, bd.SnapshotData = sr :: rest ∧
    ∃ snap, live.snapshots sr.SnapshotId = some snap ∧
      sr.StartTime = snap.StartTime

/-- Spec-side: every plan entry matches the live system. -/
def PlanMatches (live : LiveState) (dict : List (String × PlanInstance)) : Prop :=
  ∀ pr ∈ dict, InstOk live pr.1 pr.2 ∧
    ∀ bd ∈ pr.2.BlockDevs, VolOk live bd ∧ SnapOk live bd

theorem instCheck_ok_iff (live : LiveState) (iid : String) (pinst : PlanInstance) :
    instCheck live iid pinst = .ok () ↔ InstOk live iid pinst := by
  rw [instCheck, describe_instances]
  cases hinst : live.instances iid with
  | none =>
      simp only []
      constructor
      · intro h; exact absurd h (by simp)
      · rintro ⟨inst, hsome, -⟩
        rw [hinst] at hsome
        exact absurd hsome (by simp)
  | some inst =>
      simp only [verify_instance, List.length_cons, List.length_nil, if_true]
      rw [checkInstances]
      constructor
      · intro h
        by_cases hn : pinst.Name ≠ tagScan inst.Tags ""
        · rw [if_pos hn] at h; exact absurd h (by simp)
        · rw [if_neg hn] at h
          by_cases hip : pinst.IPAddress ≠ inst.PrivateIpAddress
          · rw [if_pos hip] at h; exact absurd h (by simp)
          · push_neg at hn hip
            exact ⟨inst, hinst, hn, hip⟩
      · rintro ⟨inst2, hsome, hn, hip⟩
        rw [hinst] at hsome
        obtain rfl : inst = inst2 := by injection hsome
        rw [if_neg (by simpa using hn), if_neg (by simpa using hip)]
        rfl

theorem volCheck_ok_iff (live : LiveState) (bd : PlanBlockDev) :
    volCheck live bd = .ok () ↔ VolOk live bd := by
  rw [volCheck, describe_volumes]
  cases hvol : live.volumes bd.VolumeId with
  | none =>
      simp only []
      constructor
      · intro h; exact absurd h (by simp)
      · rintro ⟨vol, hsome, -⟩
        rw [hvol] at hsome
        exact absurd hsome (by simp)
  | some vol =>
      simp only [verify_volume, List.length_cons, List.length_nil, if_true]
      cases hatt : vol.Attachments with
      | nil =>
          constructor
          · intro h
            exfalso
            simp [volLoop, volMeta, checkVolKeys, hatt] at h
          · rintro ⟨vol2, hsome, ⟨d, ds, hds, -⟩, -⟩
            rw [hvol] at hsome
            obtain rfl : vol = vol2 := by injection hsome
            rw [hatt] at hds
            exact absurd hds (by simp)
      | cons d ds =>
          constructor
          · intro h
            by_cases h1 : bd.DeviceName = d
            case neg =>
              exfalso
              simp [volLoop, volMeta, checkVolKeys, liveVolVal, hatt, h1] at h
            by_cases h2 : bd.AvailabilityZone = vol.AvailabilityZone
            case neg =>
              exfalso
              simp [volLoop, volMeta, checkVolKeys, liveVolVal, hatt, h1, h2] at h
            by_cases h3 : bd.Encrypted = vol.Encrypted
            case neg =>
              exfalso
              simp [volLoop, volMeta, checkVolKeys, liveVolVal, hatt, h1, h2, h3] at h
            by_cases h4 : bd.Size = vol.Size
            case neg =>
              exfalso
              simp [volLoop, volMeta, checkVolKeys, liveVolVal, hatt, h1, h2, h3, h4] at h
            by_cases h5 : bd.VolumeType = vol.VolumeType
            case neg =>
              exfalso
              simp [volLoop, volMeta, checkVolKeys, liveVolVal, hatt, h1, h2, h3, h4, h5] at h
            by_cases henc : bd.Encrypted = true
            · have hvenc : vol.Encrypted = true := by rw [← h3]; exact henc
              by_cases h6 : bd.KmsKeyId = vol.KmsKeyId
              case neg =>
                exfalso
                simp [volLoop, volMeta, checkVolKeys, liveVolVal, hatt, henc, hvenc,
                  h1, h2, h3, h4, h5, h6] at h
              exact ⟨vol, hvol, ⟨d, ds, hatt, h1⟩, h2, h3, h4, h5, fun _ => h6⟩
            · exact ⟨vol, hvol, ⟨d, ds, hatt, h1⟩, h2, h3, h4, h5, fun hc => absurd hc henc⟩
          · rintro ⟨vol2, hsome, ⟨d2, ds2, hds2, hdev⟩, haz, hencv, hsz, hvt, hkms⟩
            rw [hvol] at hsome
            obtain rfl : vol = vol2 := by injection hsome
            rw [hatt] at hds2
            simp only [List.cons.injEq] at hds2
            obtain ⟨rfl, rfl⟩ := hds2
            by_cases henc : bd.Encrypted = true
            · have hvenc : vol.Encrypted = true := by rw [← hencv]; exact henc
              simp [volLoop, volMeta, checkVolKeys, liveVolVal, hatt, henc, hvenc,
                hdev, haz, hencv, hsz, hvt, hkms henc]
            · have hvenc : vol.Encrypted = false := by
                rw [← hencv]; exact Bool.not_eq_true bd.Encrypted ▸ henc
              simp [volLoop, volMeta, checkVolKeys, liveVolVal, hatt, henc, hvenc,
                hdev, haz, hencv, hsz, hvt]

theorem revalBlockDev_ok_iff (live : LiveState) (bd : PlanBlockDev) :
    revalBlockDev live bd = .ok () ↔ VolOk live bd ∧ SnapOk live bd := by
  rw [revalBlockDev]
  cases hvc : volCheck live bd with
  | error e =>
      simp only []
      constructor
      · intro h; exact absurd h (by simp)
      · rintro ⟨hv, -⟩
        rw [← volCheck_ok_iff] at hv
        rw [hvc] at hv
        exact absurd hv (by simp)
  | ok u =>
      cases u
      simp only []
      have hv : VolOk live bd := (volCheck_ok_iff live bd).mp hvc
      cases hsd : bd.SnapshotData with
      | nil =>
          constructor
          · intro h; exact absurd h (by simp)
          · rintro ⟨-, sr, rest, hsr, -⟩
            rw [hsd] at hsr
            exact absurd hsr (by simp)
      | cons sr rest =>
          simp only []
          rw [describe_snapshots]
          cases hsnap : live.snapshots sr.SnapshotId with
          | none =>
              simp only []
              constructor
              · intro h; exact absurd h (by simp)
              · rintro ⟨-, sr2, rest2, hsr2, snap, hsnap2, -⟩
                rw [hsd] at hsr2
                simp only [List.cons.injEq] at hsr2
                obtain ⟨rfl, rfl⟩ := hsr2
                rw [hsnap] at hsnap2
                exact absurd hsnap2 (by simp)
          | some snap =>
              simp only [verify_snapshot, List.length_cons, List.length_nil, if_true]
              rw [snapLoop]
              constructor
              · intro h
                by_cases hst : sr.StartTime = snap.StartTime
                case neg => exfalso; simp [hst] at h
                exact ⟨hv, sr, rest, hsd, snap, hsnap, hst⟩
              · rintro ⟨-, sr2, rest2, hsr2, snap2, hsnap2, hst2⟩
                rw [hsd] at hsr2
                simp only [List.cons.injEq] at hsr2
                obtain ⟨rfl, rfl⟩ := hsr2
                rw [hsnap] at hsnap2
                obtain rfl : snap = snap2 := by injection hsnap2
                simp [snapLoop, hst2]

theorem revalBlockDevs_ok_iff (live : LiveState) : ∀ l : List PlanBlockDev,
    revalBlockDevs live l = .ok () ↔ ∀ bd ∈ l, VolOk live bd ∧ SnapOk live bd := by
  intro l
  induction l with
  | nil => simp [revalBlockDevs]
  | cons bd rest ih =>
      rw [revalBlockDevs]
      cases hb : revalBlockDev live bd with
      | error e =>
          simp only []
          constructor
          · intro h; exact absurd h (by simp)
          · intro h
            have hok := (revalBlockDev_ok_iff live bd).mpr (h bd (by simp))
            rw [hb] at hok
            exact absurd hok (by simp)
      | ok u =>
          cases u
          simp only []
          rw [ih]
          constructor
          · intro h bd2 hbd2
            rcases List.mem_cons.mp hbd2 with rfl | hmem
            · exact (revalBlockDev_ok_iff live bd2).mp hb
            · exact h bd2 hmem
          · intro h bd2 hbd2
            exact h bd2 (List.mem_cons_of_mem bd hbd2)

/-- A plan with one instance and one unencrypted block device. -/
def c5bd : PlanBlockDev :=
  ⟨"/dev/sda1", "vol-1", "eu-west-2a", false, 100, "gp3", "",
    [⟨"snap-1", "2024-01-01 00:00:00+00:00"⟩]⟩

def c5plan : List (String × PlanInstance) :=
  [("i-1", ⟨"web", "10.0.0.1", [c5bd]⟩)]

/-- A live system in which no resource exists. -/
def c5liveMissing : LiveState :=
  ⟨fun _ => none, fun _ => none, fun _ => none⟩

/-- A live system in which every resource exists and every tracked
attribute matches, but the volume has no attachments. -/
def c5liveUnattached : LiveState :=
  ⟨fun i => if i = "i-1" then some ⟨[("Name", "web")], "10.0.0.1"⟩ else none,
   fun v => if v = "vol-1" then some ⟨[], "eu-west-2a", false, 100, "gp3", ""⟩ else none,
   fun s => if s = "snap-1" then some ⟨"2024-01-01 00:00:00+00:00"⟩ else none⟩

/-- C5 counterexample: a missing instance makes revalidation die with the
uncaught botocore `ClientError` from `describe_instances`, and an
existing-but-unattached volume makes it die with the uncaught
`IndexError` from `volume["Attachments"][0]` (line 974); neither outcome
is the fatal drift error naming the offending field with the
plan-recorded and live values. -/
theorem c5_missing_and_unattached_crash :
    revalidate_loaded_plan c5liveMissing c5plan = .error (.clientError "i-1") ∧
    ((c5liveUnattached.volumes "vol-1").isSome = true ∧
     revalidate_loaded_plan c5liveUnattached c5plan = .error (.indexError "vol-1")) ∧
    (∀ f p l, DriftErr.clientError "i-1" ≠ .mismatch f p l ∧
              DriftErr.indexError "vol-1" ≠ .mismatch f p l) :=
  ⟨rfl, ⟨rfl, rfl⟩,
    fun f p l => ⟨fun h => DriftErr.noConfusion h, fun h => DriftErr.noConfusion h⟩⟩

/-- C5 (amended): revalidation of a loaded plan succeeds exactly when
every plan instance exists live with matching `Name` tag and private IP,
every plan volume exists live, has at least one attachment whose device
node equals the recorded device name, and matches availability zone,
encryption flag, size, type, and KMS key when encrypted, and every block
device records a first snapshot that exists live with matching rendered
start time. -/
theorem c5_amended_revalidate_iff (live : LiveState)
    (dict : List (String × PlanInstance)) :
    revalidate_loaded_plan live dict = .ok () ↔ PlanMatches live dict := by
  induction dict with
  | nil =>
      simp only [revalidate_loaded_plan, PlanMatches]
      simp
  | cons pr rest ih =>
      rcases pr with ⟨iid, pinst⟩
      rw [revalidate_loaded_plan]
      cases hic : instCheck live iid pinst with
      | error e =>
          simp only []
          constructor
          · intro h; exact absurd h (by simp)
          · intro h
            have hi := (h (iid, pinst) (by simp)).1
            have hok := (instCheck_ok_iff live iid pinst).mpr hi
            rw [hic] at hok
            exact absurd hok (by simp)
      | ok u =>
          cases u
          simp only []
          cases hbd : revalBlockDevs live pinst.BlockDevs with
          | error e =>
              constructor
              · intro h; exact absurd h (by simp)
              · intro h
                have hb := (h (iid, pinst) (by simp)).2
                have hok := (revalBlockDevs_ok_iff live pinst.BlockDevs).mpr hb
                rw [hbd] at hok
                exact absurd hok (by simp)
          | ok u2 =>
              cases u2
              simp only []
              rw [ih]
              simp only [PlanMatches]
              constructor
              · intro h pr2 hpr2
                rcases List.mem_cons.mp hpr2 with rfl | hmem
                · exact ⟨(instCheck_ok_iff live iid pinst).mp hic,
                    (revalBlockDevs_ok_iff live pinst.BlockDevs).mp hbd⟩
                · exact h pr2 hmem
              · intro h pr2 hpr2
                exact h pr2 (List.mem_cons_of_mem _ hpr2)

theorem checkVolKeys_no_index (vid : String) (vol : LiveVolume) (d : String)
    (ds : List String) (hatt : vol.Attachments = d :: ds) :
    ∀ (meta : List (String × PVal)) (w : String),
      checkVolKeys vid vol meta ≠ .error (.indexError w) := by
  intro meta
  induction meta with
  | nil => intro w h; exact absurd h (by simp [checkVolKeys])
  | cons kv rest ih =>
      rcases kv with ⟨k, pv⟩
      intro w h
      rw [checkVolKeys] at h
      by_cases hk : k = "DeviceName"
      · rw [if_pos hk] at h
        rw [hatt] at h
        simp only [] at h
        by_cases hd : pv ≠ PVal.s d
        · rw [if_pos hd] at h; exact absurd h (by simp)
        · rw [if_neg hd] at h; exact ih w h
      · rw [if_neg hk] at h
        by_cases hv : pv ≠ liveVolVal vol k
        · rw [if_pos hv] at h; exact absurd h (by simp)
        · rw [if_neg hv] at h; exact ih w h

/-- C10: when a plan-recorded volume exists live with an empty attachment
list, the device-name comparison's `volume["Attachments"][0]` is out of
bounds, so the volume check dies with the uncaught `IndexError` rather
than any field-naming drift error; and whenever the described volume has
at least one attachment, no `IndexError` outcome is possible, so the
check is total exactly under that precondition. -/
theorem c10_unattached_volume_crashes (live : LiveState) (bd : PlanBlockDev)
    (vol : LiveVolume) (hvol : live.volumes bd.VolumeId = some vol)
    (hatt : vol.Attachments = []) :
    (volCheck live bd = .error (.indexError bd.VolumeId) ∧
     ∀ f p l, DriftErr.indexError bd.VolumeId ≠ .mismatch f p l) ∧
    (∀ (vol2 : LiveVolume) (d : String) (ds : List String),
      vol2.Attachments = d :: ds →
      ∀ w, verify_volume bd.VolumeId (volMeta bd) [vol2] ≠ .error (.indexError w)) := by
  constructor
  · constructor
    · rw [volCheck, describe_volumes, hvol]
      simp only [verify_volume, List.length_cons, List.length_nil, if_true]
      rw [volLoop, volMeta]
      rw [List.cons_append, checkVolKeys, if_pos rfl, hatt]
    · intro f p l h
      exact DriftErr.noConfusion h
  · intro vol2 d ds hatt2 w h
    rw [verify_volume] at h
    rw [if_pos (by simp)] at h
    rw [volLoop] at h
    cases hck : checkVolKeys bd.VolumeId vol2 (volMeta bd) with
    | error e =>
        rw [hck] at h
        simp only [] at h
        have he : e = .indexError w := by injection h
        subst he
        exact checkVolKeys_no_index bd.VolumeId vol2 d ds hatt2 (volMeta bd) w hck
    | ok u =>
        cases u
        rw [hck] at h
        simp only [volLoop] at h
        exact absurd h (by simp)

def c10vol : LiveVolume := ⟨[], "eu-west-2a", false, 100, "gp3", ""⟩

def c10bd : PlanBlockDev :=
  ⟨"/dev/sda1", "vol-9", "eu-west-2a", false, 100, "gp3", "", [⟨"snap-9", "t0"⟩]⟩

def c10live : LiveState :=
  ⟨fun _ => none, fun v => if v = "vol-9" then some c10vol else none, fun _ => none⟩

theorem c10_witness :
    (c10live.volumes c10bd.VolumeId = some c10vol ∧ c10vol.Attachments = []) ∧
    ((volCheck c10live c10bd = .error (.indexError c10bd.VolumeId) ∧
      ∀ f p l, DriftErr.indexError c10bd.VolumeId ≠ .mismatch f p l) ∧
     (∀ (vol2 : LiveVolume) (d : String) (ds : List String),
       vol2.Attachments = d :: ds →
       ∀ w, verify_volume c10bd.VolumeId (volMeta c10bd) [vol2] ≠
         .error (.indexError w))) :=
  ⟨⟨rfl, rfl⟩, c10_unattached_volume_crashes c10live c10bd c10vol rfl rfl⟩
